import Mathlib

/-!
Shallow embedding of `experiments/base_experiment_runner.py` (class
`BaseExperimentRunner`) and proofs about its data-partitioning and
preprocessing behaviour.

Modelling conventions:
* numpy arrays of training images are represented as lists of rows
  (`List Img`, where an image `Img` is its flattened list of rational
  pixel values).  The raw byte/float pixel values are modelled by `ℚ`
  (exact arithmetic; `astype(np.float32) / 255` becomes `(· / 255)`).
* the label array `y_train` can be 1-D (mnist) or 2-D (cifar10); the
  inductive `YArr` keeps both layouts, mirroring the
  `len(y_train.shape)` dispatch in the source.
* fallible numpy operations (reshape with `-1`, boolean-mask and fancy
  indexing, `array_split`) return `Except PyErr` / `Option`, with
  `PyErr` naming the Python exception that the operation raises.
* `np.random.permutation(n)` is an arbitrary permutation of
  `range n`; the functions that call it take the permutation as an
  explicit argument, and theorems hypothesise that it is a permutation.
* the generator `get_train_dataloader_for_node` (a `while True:` loop
  around a `for` loop of batch slices) is embedded by its step-indexed
  denotation: the function maps `k` to the `k`-th yielded batch, which
  is batch `k % ceil(n / batch_size)` of a single pass.  A call on an
  empty partition never yields (the generator spins forever); this
  "no k-th yield" is modelled as `none`, as is the `ValueError` that
  `range(0, n, 0)` raises when `batch_size = 0`.
-/

namespace FlwrP2p

/-- Python exceptions that the embedded operations can raise.  The
constructors record the raising site: the first four are `ValueError`s,
the rest are the other exception classes that appear. -/
inductive PyErr where
  | valueErrorUnsupported (dataset : String)
  | valueErrorReshape
  | valueErrorRangeStepZero
  | valueErrorSectionsZero
  | zeroDivisionError
  | indexError
  | typeError
  | assertionError (msg : String)
deriving DecidableEq, Repr

/-- Which of the embedded Python exceptions are `ValueError`s. -/
def PyErr.isValueError : PyErr → Bool
  | .valueErrorUnsupported _ => true
  | .valueErrorReshape => true
  | .valueErrorRangeStepZero => true
  | .valueErrorSectionsZero => true
  | _ => false

deriving instance DecidableEq for Except

instance lawfulBEqOfDecidableEq (α : Type) [DecidableEq α] :
    @LawfulBEq α instBEqOfDecidableEq :=
  ⟨fun h => of_decide_eq_true h, by intro a; exact decide_eq_true rfl⟩

/-- A flattened image row: the rational pixel values of one sample. -/
abbrev Img := List ℚ

/-- Boolean-mask selection, `a[mask]` for a boolean array `mask`
of the same length (the guarded version is `npBoolIndexE`). -/
def maskSelect (xs : List α) (mask : List Bool) : List α :=
  ((xs.zip mask).filter (fun p => p.2)).map Prod.fst

/-- numpy boolean-mask indexing `a[mask]`: raises `IndexError` when the
mask length does not match the first axis. -/
def npBoolIndexE (xs : List α) (mask : List Bool) : Except PyErr (List α) :=
  if mask.length = xs.length then .ok (maskSelect xs mask) else .error .indexError

/-- numpy fancy indexing `a[idx]` by a list of indices; `none` models
the `IndexError` on an out-of-range index. -/
def fancyIndex (xs : List α) (idx : List Nat) : Option (List α) :=
  idx.mapM (fun i => xs[i]?)

/-- Python `range(0, stop, step)` for `step > 0` (callers guard the
`step = 0` `ValueError` themselves). -/
def pyRangeStep (stop step : Nat) : List Nat :=
  (List.range ((stop + step - 1) / step)).map (· * step)

/-- Python `int()` applied to a rational: truncation toward zero. -/
def pyInt (q : ℚ) : Int :=
  if 0 ≤ q then ⌊q⌋ else -⌊-q⌋

/-- The numpy section sizes used by `np.array_split(a, k)`:
`n % k` sections of length `n / k + 1` followed by `k - n % k`
sections of length `n / k`. -/
def arraySplitSizes (n k : Nat) : List Nat :=
  List.replicate (n % k) (n / k + 1) ++ List.replicate (k - n % k) (n / k)

/-- Cut a list into consecutive chunks of the given sizes. -/
def splitBySizes : List Nat → List α → List (List α)
  | [], _ => []
  | s :: ss, xs => xs.take s :: splitBySizes ss (xs.drop s)

/-- `np.array_split(a, k)` for `k > 0` (the `k = 0` `ValueError` is
guarded at call sites). -/
def array_split (xs : List α) (k : Nat) : List (List α) :=
  splitBySizes (arraySplitSizes xs.length k) xs

/-- A numpy array as stored by `normalize_data`: its shape and its
flattened elements (row-major). -/
structure NpArray where
  shape : List Nat
  flat : List ℚ
deriving DecidableEq, Repr

/-- `np.reshape(a, [-1] ++ dims)`: infers the first dimension from the
element count; raises `ValueError` when the known product does not
divide the element count (or is zero, so that `-1` cannot be
inferred). -/
def npReshapeNeg1 (a : NpArray) (dims : List Nat) : Except PyErr NpArray :=
  if dims.prod ≠ 0 ∧ dims.prod ∣ a.flat.length then
    .ok ⟨(a.flat.length / dims.prod) :: dims, a.flat⟩
  else .error .valueErrorReshape

/-- `BaseExperimentRunner.normalize_data`: `image_size = data.shape[1]`,
reshape to `[-1, image_size, image_size, C]` with `C = 1` for mnist and
`C = 3` for cifar10 (else `ValueError`), then divide by 255. -/
def normalize_data (dataset : String) (data : NpArray) : Except PyErr NpArray :=
  match data.shape[1]? with
  | none => .error .indexError
  | some image_size =>
    match (if dataset = "mnist" then npReshapeNeg1 data [image_size, image_size, 1]
           else if dataset = "cifar10" then npReshapeNeg1 data [image_size, image_size, 3]
           else .error (.valueErrorUnsupported dataset)) with
    | .error e => .error e
    | .ok reshaped => .ok ⟨reshaped.shape, reshaped.flat.map (fun q => q / 255)⟩

/-- Row-level view of `normalize_data` on one sample: every pixel is
divided by 255.  For a well-formed image batch (shape `[N, s, s]` or
`[N, s, s, 3]`) the reshape in `normalize_data` always succeeds and
keeps the `N` rows in place, so on rows it acts as this map. -/
def normalizeImage (img : Img) : Img := img.map (fun q => q / 255)

/-- Row-level view of `normalize_data` on a batch of samples. -/
def normalizeRows (xs : List Img) : List Img := xs.map normalizeImage

/-- The label array `y_train`/`y_test`: 1-D (mnist, a list of labels)
or 2-D (cifar10, a list of label rows), matching the
`len(y_train.shape)` dispatch in the source. -/
inductive YArr where
  | d1 : List Nat → YArr
  | d2 : List (List Nat) → YArr
deriving DecidableEq, Repr

/-- Length of the first axis of a label array. -/
def YArr.length : YArr → Nat
  | .d1 ys => ys.length
  | .d2 ys => ys.length

/-- The per-sample label of a label array: the entry itself in the 1-D
case, the first column in the 2-D case (the column that
`np.isin(y_train, partition)[:, 0]` consults). -/
def YArr.labels : YArr → List Nat
  | .d1 ys => ys
  | .d2 ys => ys.map (fun r => r.headD 0)

/-- In the 2-D case every row has a first column (rectangular numpy
arrays with at least one column); trivially true in the 1-D case. -/
def YArr.RowsNonempty : YArr → Prop
  | .d1 _ => True
  | .d2 ys => ∀ r ∈ ys, r ≠ []

instance : DecidablePred YArr.RowsNonempty := by
  intro y
  cases y with
  | d1 ys => exact .isTrue trivial
  | d2 ys => exact inferInstanceAs (Decidable (∀ r ∈ ys, r ≠ []))

/-- Row selection `y_train[selected]` by a boolean mask (the mask is
built from `y_train` itself, so its length always matches). -/
def YArr.maskSelect : YArr → List Bool → YArr
  | .d1 ys, m => .d1 (FlwrP2p.maskSelect ys m)
  | .d2 ys, m => .d2 (FlwrP2p.maskSelect ys m)

/-- Fancy indexing `y_train[indices]` on the first axis. -/
def YArr.fancyIndex : YArr → List Nat → Option YArr
  | .d1 ys, idx => (FlwrP2p.fancyIndex ys idx).map .d1
  | .d2 ys, idx => (FlwrP2p.fancyIndex ys idx).map .d2

/-- `np.array_split` on the first axis of a label array. -/
def YArr.arraySplit : YArr → Nat → List YArr
  | .d1 ys, k => (array_split ys k).map .d1
  | .d2 ys, k => (array_split ys k).map .d2

/-- Slice `y[i : j]` on the first axis. -/
def YArr.slice : YArr → Nat → Nat → YArr
  | .d1 ys, i, n => .d1 ((ys.drop i).take n)
  | .d2 ys, i, n => .d2 ((ys.drop i).take n)

/-- Whether a label array is 1-D. -/
def YArr.isD1 : YArr → Bool
  | .d1 _ => true
  | .d2 _ => false

/-- The underlying list of a 1-D label array (empty for 2-D). -/
def YArr.asD1 : YArr → List Nat
  | .d1 ys => ys
  | .d2 _ => []

/-- The underlying rows of a 2-D label array (empty for 1-D). -/
def YArr.asD2 : YArr → List (List Nat)
  | .d1 _ => []
  | .d2 ys => ys

/-- Concatenation of label-array parts along the first axis (used only
to state theorems about `array_split` results, whose parts all have the
dimensionality of the array that was split). -/
def joinY (ps : List YArr) : YArr :=
  if ps.all YArr.isD1 then .d1 (ps.map YArr.asD1).flatten
  else .d2 (ps.map YArr.asD2).flatten

/-- The experiment-runner state: the configuration fields read by the
embedded methods and the stored datasets
(`self.x_train`, `self.y_train`, `self.x_test`, `self.y_test`,
`self.partitioned_x_train`, `self.partitioned_y_train`). -/
structure ExperimentState where
  num_nodes : Nat
  batch_size : Nat
  lr : ℚ
  dataset : String
  net : String
  x_train : List Img
  y_train : YArr
  x_test : List Img
  y_test : YArr
  partitioned_x_train : List (List Img)
  partitioned_y_train : List YArr
deriving DecidableEq, Repr

/-- The quadruple returned by the three dataset-splitting methods:
`(partitioned_x_train, partitioned_y_train, x_test, y_test)`. -/
structure SplitResult where
  partitioned_x_train : List (List Img)
  partitioned_y_train : List YArr
  x_test : List Img
  y_test : YArr
deriving DecidableEq, Repr

/-- Modelled from the spec: the external model builders
`SimpleMnistModel` and `ResNetModelBuilder` (imported by the source but
not under `src/`) are thin factories; a built model instance is
represented opaquely by the builder that produced it together with the
arguments it was given. -/
inductive KerasModel where
  | simpleMnist (lr : ℚ)
  | resNet (lr : ℚ) (net : String) (weights : String)
deriving DecidableEq, Repr

/-- `BaseExperimentRunner.create_models`: for mnist the net must be
`"simple"` (else `AssertionError`); `"simple"` and `"resnet50"` build
one model per node; any other net falls through and returns Python
`None` (modelled as `none`). -/
def create_models (s : ExperimentState) : Except PyErr (Option (List KerasModel)) :=
  if s.dataset = "mnist" ∧ ¬ s.net = "simple" then
    .error (.assertionError ("Net not supported: " ++ s.net ++ " for mnist"))
  else if s.net = "simple" then
    .ok (some (List.replicate s.num_nodes (.simpleMnist s.lr)))
  else if s.net = "resnet50" then
    .ok (some (List.replicate s.num_nodes (.resNet s.lr "ResNet50" "imagenet")))
  else .ok none

/-- `classes[i : i + num_classes_per_partition] for i in
range(0, len(classes), ncpp)` over `classes = list(range(10))`, with
`ncpp = int(10 / num_partitions)`.  `num_partitions = 0` is Python's
`ZeroDivisionError`; `ncpp = 0` (i.e. `num_partitions > 10`) makes
`range`'s step zero, a `ValueError`. -/
def partitionedClasses (num_partitions : Nat) : Except PyErr (List (List Nat)) :=
  if num_partitions = 0 then .error .zeroDivisionError
  else
    if 10 / num_partitions = 0 then .error .valueErrorRangeStepZero
    else
      .ok ((pyRangeStep 10 (10 / num_partitions)).map
        (fun i => ((List.range 10).drop i).take (10 / num_partitions)))

/-- `selected = np.isin(y_train, partition)` followed by `[:, 0]` in
the 2-D case: the mask says whether each sample's label (first column
for 2-D) is in the class block.  A 2-D row without a first column is
the `IndexError` of `[:, 0]`. -/
def selectedMask (y : YArr) (block : List Nat) : Except PyErr (List Bool) :=
  match y with
  | .d1 ys => .ok (ys.map (fun l => decide (l ∈ block)))
  | .d2 ys =>
      match ys.mapM (fun r => r.head?) with
      | some heads => .ok (heads.map (fun l => decide (l ∈ block)))
      | none => .error .indexError

/-- The per-class-block loop body of `split_training_data_into_paritions`:
select by mask, run the two `assert`s, and recurse over the remaining
blocks. -/
def splitLoop (x : List Img) (y : YArr) :
    List (List Nat) → Except PyErr (List (List Img) × List YArr)
  | [] => .ok ([], [])
  | block :: rest => do
      let sel ← selectedMask y block
      let xsel ← npBoolIndexE x sel
      let ysel := y.maskSelect sel
      if xsel.length < x.length then
        if xsel.length = ysel.length then
          let pr ← splitLoop x y rest
          .ok (xsel :: pr.1, ysel :: pr.2)
        else .error (.assertionError "")
      else .error (.assertionError "partitioned dataset should be smaller than original dataset")

/-- `BaseExperimentRunner.split_training_data_into_paritions`. -/
def split_training_data_into_paritions (x : List Img) (y : YArr) (num_partitions : Nat) :
    Except PyErr (List (List Img) × List YArr) := do
  let blocks ← partitionedClasses num_partitions
  splitLoop x y blocks

/-- Number of class blocks (hence returned partitions) that
`split_training_data_into_paritions` builds for a given
`num_partitions`. -/
def numClassBlocks (num_partitions : Nat) : Nat :=
  (pyRangeStep 10 (10 / num_partitions)).length

/-- `BaseExperimentRunner.create_partitioned_datasets`. -/
def create_partitioned_datasets (s : ExperimentState) :
    Except PyErr (ExperimentState × SplitResult) := do
  let xtr := normalizeRows s.x_train
  let xte := normalizeRows s.x_test
  let pr ← split_training_data_into_paritions xtr s.y_train s.num_nodes
  .ok (s, ⟨pr.1, pr.2, xte, s.y_test⟩)

/-- `BaseExperimentRunner.random_split`; `indices` stands for the
`np.random.permutation(num_train)` draw. -/
def random_split (s : ExperimentState) (indices : List Nat) :
    Except PyErr (ExperimentState × SplitResult) := do
  let xtr := normalizeRows s.x_train
  let xte := normalizeRows s.x_test
  let x' ← match fancyIndex xtr indices with
    | some l => Except.ok l
    | none => Except.error PyErr.indexError
  let y' ← match YArr.fancyIndex s.y_train indices with
    | some l => Except.ok l
    | none => Except.error PyErr.indexError
  if s.num_nodes = 0 then .error .valueErrorSectionsZero
  else .ok (s, ⟨array_split x' s.num_nodes, YArr.arraySplit y' s.num_nodes, xte, s.y_test⟩)

/-- The samples of class `c`, each image kept next to its label, in
dataset order.  The source's loop
`for i in range(len(self.y_train)): x_train_by_label[y[i]].append(x_train[i]);
y_train_by_label[y[i]].append(y[i])` fills the two per-class buckets in
lockstep and in index order, so `x_train_by_label[c]` and
`y_train_by_label[c]` are the two projections of this list. -/
def classPairs (x : List Img) (ys : List Nat) (c : Nat) : List (Img × Nat) :=
  (x.zip ys).filter (fun p => decide (p.2 = c))

/-- Python `list.extend` through a (possibly negative) index into the
two-element partition list: `-1` wraps around to the second slot, as in
`skewed_partitioned_x_train[int((i/5)) - 1]`.  Indices outside
`-2 … 1` would be an `IndexError`. -/
def extendAt2 (p : List β × List β) (idx : Int) (ys : List β) :
    Except PyErr (List β × List β) :=
  if (if idx < 0 then idx + 2 else idx) = 0 then .ok (p.1 ++ ys, p.2)
  else if (if idx < 0 then idx + 2 else idx) = 1 then .ok (p.1, p.2 ++ ys)
  else .error .indexError

/-- The `for i in range(10)` loop of `create_skewed_partition_split`:
class `i`'s first `int(num_samples * skew_factor)` samples go to node
`int(i/5)` and the rest to node `int(i/5) - 1` (Python index wrap).
Images and labels travel together as pairs (the source extends the x-
and y- lists with the same slices of the same buckets). -/
def skewedLoopGo (buckets : List (List (Img × Nat))) (skew : ℚ) :
    List Nat → (List (Img × Nat) × List (Img × Nat)) →
    Except PyErr (List (Img × Nat) × List (Img × Nat))
  | [], acc => .ok acc
  | i :: rest, acc => do
      let b := buckets.getD i []
      let k := (pyInt ((b.length : ℚ) * skew)).toNat
      let acc1 ← extendAt2 acc (Int.ofNat (i / 5)) (b.take k)
      let acc2 ← extendAt2 acc1 (Int.ofNat (i / 5) - 1) (b.drop k)
      skewedLoopGo buckets skew rest acc2

/-- The complete distribution loop over the ten classes. -/
def skewedLoop (buckets : List (List (Img × Nat))) (skew : ℚ) :
    Except PyErr (List (Img × Nat) × List (Img × Nat)) :=
  skewedLoopGo buckets skew (List.range 10) ([], [])

/-- `BaseExperimentRunner.create_skewed_partition_split`; `perm0` and
`perm1` stand for the two `np.random.permutation` draws of the final
per-node shuffle.  A 2-D `y_train` is the `TypeError` of indexing a
Python list with a size-1 array; a label `≥ 10` or a `y_train` longer
than `x_train` is the `IndexError` of `x_train_by_label[label]` /
`x_train[i]`.  The per-node x- and y- lists are built by the same loop
from the same slices and shuffled by the same indices, so they are
embedded as paired lists and projected at the end. -/
def create_skewed_partition_split (s : ExperimentState) (skew : ℚ)
    (perm0 perm1 : List Nat) : Except PyErr (ExperimentState × SplitResult) := do
  let xtr := normalizeRows s.x_train
  let xte := normalizeRows s.x_test
  match s.y_train with
  | .d2 _ => .error .typeError
  | .d1 ys =>
    if (∀ l ∈ ys, l < 10) ∧ ys.length ≤ xtr.length then
      let buckets := (List.range 10).map (fun c => classPairs xtr ys c)
      let pr ← skewedLoop buckets skew
      match fancyIndex pr.1 perm0, fancyIndex pr.2 perm1 with
      | some p0, some p1 =>
          .ok (s, ⟨[p0.map Prod.fst, p1.map Prod.fst],
                   [.d1 (p0.map Prod.snd), .d1 (p1.map Prod.snd)],
                   xte, s.y_test⟩)
      | _, _ => .error .indexError
    else .error .indexError

/-- `BaseExperimentRunner.get_train_dataloader_for_node`, embedded as
the `k`-th batch yielded by the generator (see the header comment):
one pass yields the slices `[i : i + batch_size]` for
`i in range(0, len(partition), batch_size)` and the `while True:` loop
repeats the pass forever. -/
def get_train_dataloader_for_node (s : ExperimentState) (node_idx k : Nat) :
    Option (List Img × YArr) := do
  let xs ← s.partitioned_x_train[node_idx]?
  let ys ← s.partitioned_y_train[node_idx]?
  if s.batch_size = 0 then none
  else
    let starts := pyRangeStep xs.length s.batch_size
    if starts.length = 0 then none
    else
      let i := starts.getD (k % starts.length) 0
      some ((xs.drop i).take s.batch_size, ys.slice i s.batch_size)

/-- Number of batches in one pass of the dataloader over a partition
of `n` samples with batch size `b > 0`: `len(range(0, n, b))`. -/
def numBatches (n b : Nat) : Nat := (pyRangeStep n b).length

/-- The number of samples of class `c` that the skew sends to the
"primary" node for that class: `int(num_samples * skew_factor)`, which
equals `⌊num_samples * skew_factor⌋` for a skew factor in `[0, 1]`. -/
def skewCount (x : List Img) (ys : List Nat) (skew : ℚ) (c : Nat) : Nat :=
  (⌊((classPairs x ys c).length : ℚ) * skew⌋).toNat

/-- The first `⌊n_c * skew⌋` samples of class `c` (image–label pairs,
in dataset order). -/
def skewHead (x : List Img) (ys : List Nat) (skew : ℚ) (c : Nat) : List (Img × Nat) :=
  (classPairs x ys c).take (skewCount x ys skew c)

/-- The remaining `n_c - ⌊n_c * skew⌋` samples of class `c`. -/
def skewTail (x : List Img) (ys : List Nat) (skew : ℚ) (c : Nat) : List (Img × Nat) :=
  (classPairs x ys c).drop (skewCount x ys skew c)

/-- The slice of class `i`'s bucket that the loop body sends to the
class's primary node: `x_train_by_label[i][:num_samples_for_node_1]`. -/
def skTake (bx : List (List (Img × Nat))) (skew : ℚ) (i : Nat) : List (Img × Nat) :=
  (bx.getD i []).take ((pyInt (((bx.getD i []).length : ℚ) * skew)).toNat)

/-- The complementary slice `x_train_by_label[i][num_samples_for_node_1:]`. -/
def skDrop (bx : List (List (Img × Nat))) (skew : ℚ) (i : Nat) : List (Img × Nat) :=
  (bx.getD i []).drop ((pyInt (((bx.getD i []).length : ℚ) * skew)).toNat)

/-- What node 0 should receive according to the skewed-split contract:
the first `⌊n_c * s⌋` samples of each class `c ∈ 0…4`, then the
remaining samples of each class `c ∈ 5…9`. -/
def node0Spec (x : List Img) (ys : List Nat) (skew : ℚ) : List (Img × Nat) :=
  ((List.range 5).map (fun c => skewHead x ys skew c)).flatten
    ++ ((List.range 5).map (fun c => skewTail x ys skew (5 + c))).flatten

/-- What node 1 should receive: the remaining samples of each class
`c ∈ 0…4`, then the first `⌊n_c * s⌋` samples of each class
`c ∈ 5…9`. -/
def node1Spec (x : List Img) (ys : List Nat) (skew : ℚ) : List (Img × Nat) :=
  ((List.range 5).map (fun c => skewTail x ys skew c)).flatten
    ++ ((List.range 5).map (fun c => skewHead x ys skew (5 + c))).flatten

/-- A small well-formed two-node mnist state used by concrete
witnesses: two training samples labelled 0 and 5. -/
def stA : ExperimentState :=
  ⟨2, 1, 0, "mnist", "simple", [[0], [255]], .d1 [0, 5], [[2]], .d1 [1], [], []⟩

/-- A three-node state over ten samples labelled 0…9. -/
def stB : ExperimentState :=
  ⟨3, 1, 0, "mnist", "simple", (List.range 10).map (fun i => [(i : ℚ)]),
   .d1 (List.range 10), [], .d1 [], [], []⟩

/-- A state with one populated one-sample partition. -/
def stC : ExperimentState :=
  ⟨1, 1, 0, "mnist", "simple", [], .d1 [], [], .d1 [], [[[5]]], [.d1 [7]]⟩

/-- A mnist state configured with the resnet50 net. -/
def stE : ExperimentState :=
  ⟨2, 1, 0, "mnist", "resnet50", [], .d1 [], [], .d1 [], [], []⟩

/-! Theorems.  First some shared lemmas about the embedded numpy
operations, then one theorem (plus witness / counterexample) per
specification claim. -/

theorem normalize_data_eq_match (ds : String) (a : NpArray) (is : Nat)
    (hs : a.shape[1]? = some is) :
    normalize_data ds a =
      (match (if ds = "mnist" then npReshapeNeg1 a [is, is, 1]
              else if ds = "cifar10" then npReshapeNeg1 a [is, is, 3]
              else .error (.valueErrorUnsupported ds)) with
       | .error e => .error e
       | .ok r => .ok ⟨r.shape, r.flat.map (fun q => q / 255)⟩) := by
  rw [normalize_data, hs]

theorem npReshapeNeg1_ok (a : NpArray) (dims : List Nat)
    (h1 : dims.prod ≠ 0) (h2 : dims.prod ∣ a.flat.length) :
    npReshapeNeg1 a dims = .ok ⟨(a.flat.length / dims.prod) :: dims, a.flat⟩ := by
  rw [npReshapeNeg1, if_pos ⟨h1, h2⟩]

theorem npReshapeNeg1_error_eq (a : NpArray) (dims : List Nat) (e : PyErr)
    (h : npReshapeNeg1 a dims = .error e) : e = .valueErrorReshape := by
  rw [npReshapeNeg1] at h
  by_cases hc : dims.prod ≠ 0 ∧ dims.prod ∣ a.flat.length
  · rw [if_pos hc] at h; cases h
  · rw [if_neg hc] at h; cases h; rfl

theorem npReshapeNeg1_ok_iff (a : NpArray) (dims : List Nat) :
    (∃ out, npReshapeNeg1 a dims = .ok out) ↔
      dims.prod ≠ 0 ∧ dims.prod ∣ a.flat.length := by
  constructor
  · rintro ⟨out, h⟩
    rw [npReshapeNeg1] at h
    by_cases hc : dims.prod ≠ 0 ∧ dims.prod ∣ a.flat.length
    · exact hc
    · rw [if_neg hc] at h; cases h
  · intro hc
    exact ⟨_, npReshapeNeg1_ok a dims hc.1 hc.2⟩

/-- C6: Normalization postcondition: for an input array whose element
count is divisible by `shape[1] * shape[1] * C` (`C = 1` for mnist,
`C = 3` for cifar10, the first dimension inferred by `-1` being
positive) with entries in `0 … 255`, `normalize_data` returns an array
of shape `[N, image_size, image_size, C]` containing exactly the
input's elements in order, each divided by 255, and every output value
lies in `[0, 1]`. -/
theorem normalize_data_postcondition (ds : String) (C : Nat) (a : NpArray) (is : Nat)
    (hds : ds = "mnist" ∧ C = 1 ∨ ds = "cifar10" ∧ C = 3)
    (hs : a.shape[1]? = some is) (hpos : 0 < is)
    (hdvd : is * is * C ∣ a.flat.length)
    (hrange : ∀ q ∈ a.flat, 0 ≤ q ∧ q ≤ 255) :
    normalize_data ds a =
      .ok ⟨[a.flat.length / (is * is * C), is, is, C], a.flat.map (fun q => q / 255)⟩
    ∧ ∀ q ∈ a.flat.map (fun q => q / 255), 0 ≤ q ∧ q ≤ 1 := by
  have hprod : ([is, is, C] : List Nat).prod = is * is * C := by
    simp [List.prod_cons]; ring
  have hC : 0 < C := by rcases hds with ⟨_, rfl⟩ | ⟨_, rfl⟩ <;> omega
  have hne : is * is * C ≠ 0 := by positivity
  have hok : npReshapeNeg1 a [is, is, C] =
      .ok ⟨[a.flat.length / (is * is * C), is, is, C], a.flat⟩ := by
    rw [npReshapeNeg1, hprod, if_pos ⟨hne, hdvd⟩]
  constructor
  · rw [normalize_data_eq_match ds a is hs]
    rcases hds with ⟨rfl, rfl⟩ | ⟨rfl, rfl⟩ <;> simp [hok]
  · intro q hq
    rcases List.mem_map.mp hq with ⟨p, hp, rfl⟩
    rcases hrange p hp with ⟨h0, h255⟩
    constructor
    · positivity
    · rw [div_le_one (by norm_num)]
      linarith

/-- C6 witness: a concrete 2×2 mnist batch is normalized as the
postcondition states. -/
theorem normalize_data_postcondition_witness :
    normalize_data "mnist" ⟨[2, 2], [0, 255, 10, 20]⟩ =
      .ok ⟨[([0, 255, 10, 20] : List ℚ).length / (2 * 2 * 1), 2, 2, 1],
           ([0, 255, 10, 20] : List ℚ).map (fun q => q / 255)⟩
    ∧ ∀ q ∈ ([0, 255, 10, 20] : List ℚ).map (fun q => q / 255), 0 ≤ q ∧ q ≤ 1 :=
  normalize_data_postcondition "mnist" 1 ⟨[2, 2], [0, 255, 10, 20]⟩ 2
    (Or.inl ⟨rfl, rfl⟩) rfl (by decide) (by decide) (by decide)

/-- C7 counterexample: for the supported dataset `"mnist"`,
`normalize_data` on a 2×3 array (6 elements, not divisible by
`3 * 3 * 1`) raises a `ValueError` from `np.reshape`, so it is not
true that for mnist and cifar10 it never raises. -/
theorem normalize_data_mnist_raises_cex :
    normalize_data "mnist" ⟨[2, 3], [0, 0, 0, 0, 0, 0]⟩ = .error .valueErrorReshape
    ∧ PyErr.isValueError .valueErrorReshape = true := by
  constructor
  · rfl
  · rfl

/-- C7 (amended): the `Dataset not supported` `ValueError` is raised
iff the dataset is neither `"mnist"` nor `"cifar10"`; for those two
datasets that branch is never reached, but `normalize_data` can still
raise the reshape `ValueError`: it returns normally iff the element
count is divisible by the (nonzero) product `shape[1] * shape[1] * C`. -/
theorem normalize_data_valueError_cases (ds : String) (a : NpArray) (is : Nat)
    (hs : a.shape[1]? = some is) :
    (normalize_data ds a = .error (.valueErrorUnsupported ds) ↔
      ¬ ds = "mnist" ∧ ¬ ds = "cifar10")
    ∧ (∀ C, (ds = "mnist" ∧ C = 1 ∨ ds = "cifar10" ∧ C = 3) →
        ((∃ out, normalize_data ds a = .ok out) ↔
          is * is * C ≠ 0 ∧ is * is * C ∣ a.flat.length)) := by
  rw [normalize_data_eq_match ds a is hs]
  have key : ∀ dims : List Nat,
      (∃ out, (match npReshapeNeg1 a dims with
               | .error e => Except.error e
               | .ok r => Except.ok
                   (⟨r.shape, r.flat.map (fun q => q / 255)⟩ : NpArray)) = .ok out) ↔
        dims.prod ≠ 0 ∧ dims.prod ∣ a.flat.length := by
    intro dims
    constructor
    · rintro ⟨out, hout⟩
      rcases hr : npReshapeNeg1 a dims with e | r
      · rw [hr] at hout; cases hout
      · exact (npReshapeNeg1_ok_iff a dims).mp ⟨r, hr⟩
    · intro hc
      rcases (npReshapeNeg1_ok_iff a dims).mpr hc with ⟨out, hout⟩
      rw [hout]
      exact ⟨_, rfl⟩
  have noUnsup : ∀ dims : List Nat,
      ¬ (match npReshapeNeg1 a dims with
         | .error e => Except.error e
         | .ok r => Except.ok
             (⟨r.shape, r.flat.map (fun q => q / 255)⟩ : NpArray)) =
        .error (.valueErrorUnsupported ds) := by
    intro dims h
    rcases hr : npReshapeNeg1 a dims with e | r
    · rw [hr] at h
      cases h
      exact absurd (npReshapeNeg1_error_eq a dims _ hr) (by simp)
    · rw [hr] at h; cases h
  constructor
  · by_cases h1 : ds = "mnist"
    · subst h1
      rw [if_pos rfl]
      exact iff_of_false (noUnsup [is, is, 1]) (by simp)
    · by_cases h2 : ds = "cifar10"
      · subst h2
        rw [if_neg h1, if_pos rfl]
        exact iff_of_false (noUnsup [is, is, 3]) (by simp)
      · rw [if_neg h1, if_neg h2]
        simp [h1, h2]
  · rintro C (⟨rfl, rfl⟩ | ⟨rfl, rfl⟩)
    · rw [if_pos rfl, key [is, is, 1]]
      have hprod : ([is, is, 1] : List Nat).prod = is * is * 1 := by
        simp [List.prod_cons]
      rw [hprod]
    · rw [if_neg (by decide : ¬ ("cifar10" : String) = "mnist"), if_pos rfl,
        key [is, is, 3]]
      have hprod : ([is, is, 3] : List Nat).prod = is * is * 3 := by
        simp [List.prod_cons]; ring
      rw [hprod]

/-- C7 amended-claim witness: the unsupported-dataset branch fires for
a dataset string that is neither mnist nor cifar10, and a well-formed
2×2 mnist batch normalizes without raising. -/
theorem normalize_data_valueError_witness :
    (normalize_data "foo" ⟨[2, 2], [0, 0, 0, 0]⟩ =
      .error (.valueErrorUnsupported "foo"))
    ∧ (∃ out, normalize_data "mnist" ⟨[2, 2], [0, 0, 0, 0]⟩ = .ok out) := by
  have h1 := normalize_data_valueError_cases "foo" ⟨[2, 2], [0, 0, 0, 0]⟩ 2 rfl
  have h2 := normalize_data_valueError_cases "mnist" ⟨[2, 2], [0, 0, 0, 0]⟩ 2 rfl
  exact ⟨h1.1.mpr (by decide), (h2.2 1 (Or.inl ⟨rfl, rfl⟩)).mpr (by decide)⟩

/-- C8: Per-node model construction: when the net is `"simple"` or
`"resnet50"` (and, for mnist, the net is `"simple"`), `create_models`
returns a list of exactly `num_nodes` model instances, each built by
delegating to `SimpleMnistModel` resp. `ResNetModelBuilder`; when the
dataset is mnist and the net is not `"simple"` it raises
`AssertionError`. -/
theorem create_models_spec (s : ExperimentState) :
    ((s.net = "simple" ∨ s.net = "resnet50") →
      (s.dataset = "mnist" → s.net = "simple") →
      ∃ l, create_models s = .ok (some l) ∧ l.length = s.num_nodes ∧
        l = List.replicate s.num_nodes
          (if s.net = "simple" then KerasModel.simpleMnist s.lr
           else KerasModel.resNet s.lr "ResNet50" "imagenet"))
    ∧ (s.dataset = "mnist" → ¬ s.net = "simple" →
        create_models s =
          .error (.assertionError ("Net not supported: " ++ s.net ++ " for mnist"))) := by
  constructor
  · rintro (hn | hn) hm
    · refine ⟨_, ?_, List.length_replicate _ _, by rw [if_pos hn]⟩
      rw [create_models, if_neg (by rintro ⟨_, hns⟩; exact hns hn), if_pos hn]
    · have hns : ¬ s.net = "simple" := by rw [hn]; decide
      have hd : ¬ s.dataset = "mnist" := fun hd => hns (hm hd)
      refine ⟨_, ?_, List.length_replicate _ _, by rw [if_neg hns]⟩
      rw [create_models, if_neg (by rintro ⟨hd2, _⟩; exact hd hd2), if_neg hns, if_pos hn]
  · intro hd hns
    rw [create_models, if_pos ⟨hd, hns⟩]

/-- C8 witness: on a concrete mnist + simple configuration the factory
builds two `SimpleMnistModel` instances, and on a concrete mnist +
resnet50 configuration it raises the assertion. -/
theorem create_models_spec_witness :
    (∃ l, create_models stA = .ok (some l) ∧ l.length = stA.num_nodes ∧
      l = List.replicate stA.num_nodes
        (if stA.net = "simple" then KerasModel.simpleMnist stA.lr
         else KerasModel.resNet stA.lr "ResNet50" "imagenet"))
    ∧ create_models stE =
        .error (.assertionError ("Net not supported: " ++ stE.net ++ " for mnist")) :=
  ⟨(create_models_spec stA).1 (Or.inl rfl) (fun _ => rfl),
   (create_models_spec stE).2 rfl (by decide)⟩

theorem pyRangeStep_length_pos (n b : Nat) (hn : 0 < n) (hb : 0 < b) :
    0 < (pyRangeStep n b).length := by
  rw [pyRangeStep, List.length_map, List.length_range]
  exact Nat.div_pos (by omega) hb

theorem pyRangeStep_getD_lt (n b k : Nat) (hn : 0 < n) (hb : 0 < b) :
    (pyRangeStep n b).getD (k % (pyRangeStep n b).length) 0 < n := by
  have hL : (pyRangeStep n b).length = (n + b - 1) / b := by
    rw [pyRangeStep, List.length_map, List.length_range]
  have hLpos : 0 < (pyRangeStep n b).length := pyRangeStep_length_pos n b hn hb
  have hk : k % (pyRangeStep n b).length < (n + b - 1) / b := by
    rw [← hL]; exact Nat.mod_lt _ hLpos
  have hval : (pyRangeStep n b).getD (k % (pyRangeStep n b).length) 0 =
      (k % (pyRangeStep n b).length) * b := by
    rw [pyRangeStep]
    rw [List.getD_eq_getElem _ _ (by simpa [pyRangeStep] using hL ▸ hk)]
    simp
  rw [hval]
  have h1 : (n + b - 1) / b = (n - 1) / b + 1 := by
    have : n + b - 1 = (n - 1) + b := by omega
    rw [this, Nat.add_div_right _ hb]
  have h2 : k % (pyRangeStep n b).length ≤ (n - 1) / b := by omega
  calc (k % (pyRangeStep n b).length) * b ≤ ((n - 1) / b) * b :=
        Nat.mul_le_mul_right _ h2
    _ ≤ n - 1 := Nat.div_mul_le_self _ _
    _ < n := by omega

theorem dataloader_unfold (s : ExperimentState) (node k : Nat) (xs : List Img)
    (ys : YArr) (hx : s.partitioned_x_train[node]? = some xs)
    (hy : s.partitioned_y_train[node]? = some ys) (hb : ¬ s.batch_size = 0)
    (hst : ¬ (pyRangeStep xs.length s.batch_size).length = 0) :
    get_train_dataloader_for_node s node k =
      some ((xs.drop ((pyRangeStep xs.length s.batch_size).getD
               (k % (pyRangeStep xs.length s.batch_size).length) 0)).take s.batch_size,
            ys.slice ((pyRangeStep xs.length s.batch_size).getD
               (k % (pyRangeStep xs.length s.batch_size).length) 0) s.batch_size) := by
  rw [get_train_dataloader_for_node]
  simp only [hx, hy, Option.bind_eq_bind, Option.some_bind]
  rw [if_neg hb, if_neg hst]

/-- C5 counterexample: on a concrete state with a non-empty one-sample
partition and batch size 1, the per-node dataloader yields a batch at
every index `k` — so it does not complete after finitely many yielded
batches, contradicting the claim that every operation is single-shot. -/
theorem dataloader_infinite_cex :
    ¬ ∃ N, ∀ k, N ≤ k → get_train_dataloader_for_node stC 0 k = none := by
  rintro ⟨N, hN⟩
  have h1 : get_train_dataloader_for_node stC 0 N = some ([[5]], .d1 [7]) := by
    rw [dataloader_unfold stC 0 N [[5]] (.d1 [7]) rfl rfl (by decide) (by decide)]
    simp [stC, pyRangeStep, Nat.mod_one, YArr.slice]
  have h2 := hN N le_rfl
  rw [h1] at h2
  exact Option.noConfusion h2

/-- C5 (amended): the per-node training dataloader is an infinite
cyclic generator, not a finite one: for every node index with a
non-empty partition and a positive batch size it yields a (non-empty)
batch at every index `k`, and it repeats with period
`ceil(len(partition) / batch_size)`, the number of batches of one pass.
The other embedded operations are plain finite computations. -/
theorem dataloader_cyclic (s : ExperimentState) (node k : Nat) (xs : List Img)
    (ys : YArr) (hx : s.partitioned_x_train[node]? = some xs)
    (hy : s.partitioned_y_train[node]? = some ys)
    (hb : 0 < s.batch_size) (hne : xs ≠ []) :
    (∃ xb yb, get_train_dataloader_for_node s node k = some (xb, yb) ∧ xb ≠ [])
    ∧ get_train_dataloader_for_node s node (k + numBatches xs.length s.batch_size)
        = get_train_dataloader_for_node s node k := by
  have hn : 0 < xs.length := List.length_pos.mpr hne
  have hst : 0 < (pyRangeStep xs.length s.batch_size).length :=
    pyRangeStep_length_pos _ _ hn hb
  have hlt := pyRangeStep_getD_lt xs.length s.batch_size k hn hb
  constructor
  · refine ⟨_, _, dataloader_unfold s node k xs ys hx hy (by omega) (by omega), ?_⟩
    intro hcontr
    rcases List.take_eq_nil_iff.mp hcontr with h | h
    · omega
    · have h' := List.drop_eq_nil_iff.mp h
      omega
  · rw [dataloader_unfold s node _ xs ys hx hy (by omega) (by omega),
      dataloader_unfold s node k xs ys hx hy (by omega) (by omega)]
    rw [numBatches, Nat.add_mod_right]

/-- C5 amended-claim witness: the cyclic-yield property evaluated on
the concrete one-partition state. -/
theorem dataloader_cyclic_witness :
    (∃ xb yb, get_train_dataloader_for_node stC 0 5 = some (xb, yb) ∧ xb ≠ [])
    ∧ get_train_dataloader_for_node stC 0 (5 + numBatches 1 1)
        = get_train_dataloader_for_node stC 0 5 :=
  dataloader_cyclic stC 0 5 [[5]] (.d1 [7]) rfl rfl (by decide) (by decide)

theorem ok_bind {α β : Type} (a : α) (f : α → Except PyErr β) :
    (Except.ok a >>= f) = f a := rfl

theorem error_bind {α β : Type} (e : PyErr) (f : α → Except PyErr β) :
    ((Except.error e : Except PyErr α) >>= f) = .error e := rfl

theorem maskSelect_cons (x : α) (xs : List α) (b : Bool) (m : List Bool) :
    maskSelect (x :: xs) (b :: m) =
      if b then x :: maskSelect xs m else maskSelect xs m := by
  cases b <;> simp [maskSelect, List.filter_cons]

theorem maskSelect_map_pred (xs : List α) (ys : List Nat) (p : Nat → Bool) :
    maskSelect xs (ys.map p) = ((xs.zip ys).filter (fun q => p q.2)).map Prod.fst := by
  rw [maskSelect, List.zip_map_right, List.filter_map, List.map_map]
  rfl

theorem maskSelect_self (ys : List Nat) (p : Nat → Bool) :
    maskSelect ys (ys.map p) = ys.filter p := by
  induction ys with
  | nil => rfl
  | cons a as ih =>
    rw [List.map_cons, maskSelect_cons, List.filter_cons]
    cases hp : p a <;> simp [hp, ih]

theorem zip_proj_eq_self : ∀ (l : List (α × β)), (l.map Prod.fst).zip (l.map Prod.snd) = l
  | [] => rfl
  | q :: l => by simp [zip_proj_eq_self l]

theorem maskSelect_zip_pred (xs : List α) (ys : List Nat) (p : Nat → Bool)
    (h : xs.length = ys.length) :
    (maskSelect xs (ys.map p)).zip (maskSelect ys (ys.map p)) =
      (xs.zip ys).filter (fun q => p q.2) := by
  rw [maskSelect_map_pred, maskSelect_self]
  have hz : (xs.zip ys).map Prod.snd = ys := List.map_snd_zip xs ys (le_of_eq h.symm)
  have hsnd : ((xs.zip ys).filter (fun q => p q.2)).map Prod.snd = ys.filter p :=
    calc ((xs.zip ys).filter (fun q => p q.2)).map Prod.snd
        = ((xs.zip ys).map Prod.snd).filter p := by
          rw [List.filter_map]
          exact congrArg (List.map Prod.snd) (List.filter_congr (fun a _ => rfl))
      _ = ys.filter p := by rw [hz]
  rw [← hsnd, zip_proj_eq_self]

theorem maskSelect_length_le (xs : List α) (m : List Bool) :
    (maskSelect xs m).length ≤ xs.length := by
  rw [maskSelect, List.length_map]
  calc ((xs.zip m).filter (fun p => p.2)).length ≤ (xs.zip m).length :=
        List.length_filter_le _ _
    _ ≤ xs.length := by rw [List.length_zip]; omega

theorem maskSelect_length_congr (xs : List α) (ys : List β) (m : List Bool)
    (h : xs.length = ys.length) :
    (maskSelect xs m).length = (maskSelect ys m).length := by
  induction m generalizing xs ys with
  | nil => simp [maskSelect]
  | cons b bs ih =>
    cases xs with
    | nil =>
      cases ys with
      | nil => rfl
      | cons y ys => cases h
    | cons x xs =>
      cases ys with
      | nil => cases h
      | cons y ys =>
        have h' : xs.length = ys.length := by simpa using h
        rw [maskSelect_cons, maskSelect_cons]
        cases b <;> simp [ih xs ys h']

theorem maskSelect_map_length_lt (xs : List α) (ys : List Nat) (p : Nat → Bool)
    (h : xs.length = ys.length) :
    ((maskSelect xs (ys.map p)).length < xs.length ↔ ∃ l ∈ ys, ¬ p l) := by
  rw [maskSelect_map_pred, List.length_map]
  have hz : (xs.zip ys).length = xs.length := by rw [List.length_zip]; omega
  rw [← hz, List.length_filter_lt_length_iff_exists]
  constructor
  · rintro ⟨q, hq, hnp⟩
    exact ⟨q.2, (List.of_mem_zip hq).2, hnp⟩
  · rintro ⟨l, hl, hnp⟩
    have hmem : l ∈ (xs.zip ys).map Prod.snd := by
      rw [List.map_snd_zip xs ys (le_of_eq h.symm)]
      exact hl
    rcases List.mem_map.mp hmem with ⟨q, hq, rfl⟩
    exact ⟨q, hq, hnp⟩

theorem maskSelect_map_all (xs : List α) (ys : List Nat) (p : Nat → Bool)
    (h : xs.length = ys.length) (hall : ∀ l ∈ ys, p l) :
    maskSelect xs (ys.map p) = xs := by
  rw [maskSelect_map_pred]
  have hfl : (xs.zip ys).filter (fun q => p q.2) = xs.zip ys := by
    rw [List.filter_eq_self]
    intro q hq
    exact hall q.2 (List.of_mem_zip hq).2
  rw [hfl, List.map_fst_zip xs ys (le_of_eq h)]

theorem maskSelect_map_commute (f : α → β) :
    ∀ (xs : List α) (m : List Bool),
      (maskSelect xs m).map f = maskSelect (xs.map f) m
  | [], m => by simp [maskSelect]
  | x :: xs, [] => by simp [maskSelect]
  | x :: xs, b :: m => by
      rw [maskSelect_cons, List.map_cons, maskSelect_cons]
      cases b <;> simp [maskSelect_map_commute f xs m]

theorem YArr.labels_length (y : YArr) : y.labels.length = y.length := by
  cases y <;> simp [YArr.labels, YArr.length]

theorem YArr.maskSelect_labels (y : YArr) (m : List Bool) :
    (y.maskSelect m).labels = FlwrP2p.maskSelect y.labels m := by
  cases y with
  | d1 ys => rfl
  | d2 ys =>
    show (FlwrP2p.maskSelect ys m).map (fun r => r.headD 0) =
      FlwrP2p.maskSelect (ys.map (fun r => r.headD 0)) m
    exact maskSelect_map_commute _ ys m

theorem YArr.maskSelect_length (y : YArr) (m : List Bool) :
    (y.maskSelect m).length = (FlwrP2p.maskSelect y.labels m).length := by
  rw [← YArr.labels_length, YArr.maskSelect_labels]

theorem head?_eq_headD (r : List Nat) (h : r ≠ []) : r.head? = some (r.headD 0) := by
  cases r with
  | nil => exact absurd rfl h
  | cons a l => rfl

theorem mapM_head?_eq (rs : List (List Nat)) (h : ∀ r ∈ rs, r ≠ []) :
    rs.mapM (fun r => r.head?) = some (rs.map (fun r => r.headD 0)) := by
  induction rs with
  | nil => rfl
  | cons r rest ih =>
    rw [List.mapM_cons, head?_eq_headD r (h r (by simp)),
      ih (fun r' hr' => h r' (by simp [hr']))]
    rfl

theorem mapM_head?_inv :
    ∀ (rs : List (List Nat)) (hs : List Nat),
      rs.mapM (fun r => r.head?) = some hs →
      hs = rs.map (fun r => r.headD 0) ∧ ∀ r ∈ rs, r ≠ []
  | [], hs, h => by
      simp only [List.mapM_nil, Option.pure_def, Option.some.injEq] at h
      exact ⟨h.symm, by simp⟩
  | r :: rest, hs, h => by
      rw [List.mapM_cons] at h
      cases hr : r.head? with
      | none => rw [hr] at h; simp at h
      | some a =>
        rw [hr] at h
        cases hrest : rest.mapM (fun r => r.head?) with
        | none => rw [hrest] at h; simp at h
        | some tl =>
          rw [hrest] at h
          simp only [Option.pure_def, Option.bind_eq_bind, Option.some_bind,
            Option.some.injEq] at h
          obtain ⟨ht, hrs⟩ := mapM_head?_inv rest tl hrest
          cases r with
          | nil => cases hr
          | cons b bs =>
            cases hr
            refine ⟨?_, ?_⟩
            · rw [← h, ht]
              rfl
            · intro r' hr'
              rcases List.mem_cons.mp hr' with rfl | hmem
              · simp
              · exact hrs r' hmem

theorem selectedMask_ok (y : YArr) (block : List Nat) (h : y.RowsNonempty) :
    selectedMask y block = .ok (y.labels.map (fun l => decide (l ∈ block))) := by
  cases y with
  | d1 ys => rfl
  | d2 ys =>
    rw [selectedMask, mapM_head?_eq ys h]
    rfl

theorem selectedMask_ok_inv (y : YArr) (block : List Nat) (m : List Bool)
    (h : selectedMask y block = .ok m) :
    m = y.labels.map (fun l => decide (l ∈ block)) ∧ y.RowsNonempty := by
  cases y with
  | d1 ys =>
    rw [selectedMask] at h
    cases h
    exact ⟨rfl, trivial⟩
  | d2 ys =>
    rw [selectedMask] at h
    cases hm : ys.mapM (fun r => r.head?) with
    | none => rw [hm] at h; cases h
    | some heads =>
      rw [hm] at h
      cases h
      obtain ⟨hh, hrows⟩ := mapM_head?_inv ys heads hm
      exact ⟨by rw [hh]; rfl, hrows⟩

theorem splitLoop_nil (x : List Img) (y : YArr) : splitLoop x y [] = .ok ([], []) := rfl

theorem splitLoop_cons_ok (x : List Img) (y : YArr) (block : List Nat)
    (rest : List (List Nat)) (hrows : y.RowsNonempty) (hlen : x.length = y.length) :
    splitLoop x y (block :: rest) =
      (if (FlwrP2p.maskSelect x
            (y.labels.map (fun l => decide (l ∈ block)))).length < x.length then
        (splitLoop x y rest).bind (fun pr =>
          .ok (FlwrP2p.maskSelect x (y.labels.map (fun l => decide (l ∈ block))) :: pr.1,
               y.maskSelect (y.labels.map (fun l => decide (l ∈ block))) :: pr.2))
      else .error (.assertionError
        "partitioned dataset should be smaller than original dataset")) := by
  have hm : (y.labels.map (fun l => decide (l ∈ block))).length = x.length := by
    rw [List.length_map, YArr.labels_length, hlen]
  rw [splitLoop, selectedMask_ok y block hrows, ok_bind, npBoolIndexE, if_pos hm, ok_bind]
  have hsnd : (FlwrP2p.maskSelect x
      (y.labels.map (fun l => decide (l ∈ block)))).length =
      (y.maskSelect (y.labels.map (fun l => decide (l ∈ block)))).length := by
    rw [YArr.maskSelect_length]
    exact maskSelect_length_congr x y.labels _ (by rw [hlen, YArr.labels_length])
  by_cases hlt : (FlwrP2p.maskSelect x
      (y.labels.map (fun l => decide (l ∈ block)))).length < x.length
  · rw [if_pos hlt, if_pos hlt, if_pos hsnd]
    cases hrec : splitLoop x y rest with
    | error e => rfl
    | ok pr => rfl
  · rw [if_neg hlt, if_neg hlt]

theorem splitLoop_ok_rows (x : List Img) (y : YArr) (blocks : List (List Nat))
    (pr : List (List Img) × List YArr) (hne : blocks ≠ [])
    (h : splitLoop x y blocks = .ok pr) : y.RowsNonempty := by
  cases blocks with
  | nil => exact absurd rfl hne
  | cons b rest =>
    rw [splitLoop] at h
    cases hsel : selectedMask y b with
    | error e => rw [hsel, error_bind] at h; cases h
    | ok sel => exact (selectedMask_ok_inv y b sel hsel).2

theorem splitLoop_ok_char (x : List Img) (y : YArr) (hrows : y.RowsNonempty)
    (hlen : x.length = y.length) :
    ∀ (blocks : List (List Nat)) (px : List (List Img)) (py : List YArr),
      splitLoop x y blocks = .ok (px, py) →
      px = blocks.map (fun b =>
        FlwrP2p.maskSelect x (y.labels.map (fun l => decide (l ∈ b)))) ∧
      py = blocks.map (fun b =>
        y.maskSelect (y.labels.map (fun l => decide (l ∈ b))))
  | [], px, py, h => by
      rw [splitLoop_nil] at h
      cases h
      exact ⟨rfl, rfl⟩
  | b :: rest, px, py, h => by
      rw [splitLoop_cons_ok x y b rest hrows hlen] at h
      by_cases hlt : (FlwrP2p.maskSelect x
          (y.labels.map (fun l => decide (l ∈ b)))).length < x.length
      · rw [if_pos hlt] at h
        cases hrec : splitLoop x y rest with
        | error e => rw [hrec] at h; cases h
        | ok pr =>
          rw [hrec] at h
          cases h
          obtain ⟨h1, h2⟩ := splitLoop_ok_char x y hrows hlen rest pr.1 pr.2 hrec
          exact ⟨by rw [List.map_cons, ← h1], by rw [List.map_cons, ← h2]⟩
      · rw [if_neg hlt] at h
        cases h

theorem splitLoop_ok_of_strict (x : List Img) (y : YArr) (hrows : y.RowsNonempty)
    (hlen : x.length = y.length) :
    ∀ blocks : List (List Nat), (∀ b ∈ blocks, ∃ l ∈ y.labels, ¬ l ∈ b) →
      ∃ pr, splitLoop x y blocks = .ok pr
  | [], _ => ⟨([], []), rfl⟩
  | b :: rest, hstrict => by
      have hlab : x.length = y.labels.length := by rw [YArr.labels_length, hlen]
      have hlt : (FlwrP2p.maskSelect x
          (y.labels.map (fun l => decide (l ∈ b)))).length < x.length := by
        rw [maskSelect_map_length_lt x y.labels _ hlab]
        rcases hstrict b (by simp) with ⟨l, hl, hnb⟩
        exact ⟨l, hl, by simpa using hnb⟩
      rcases splitLoop_ok_of_strict x y hrows hlen rest
          (fun b' hb' => hstrict b' (by simp [hb'])) with ⟨pr, hpr⟩
      refine ⟨(FlwrP2p.maskSelect x (y.labels.map (fun l => decide (l ∈ b))) :: pr.1,
               y.maskSelect (y.labels.map (fun l => decide (l ∈ b))) :: pr.2), ?_⟩
      rw [splitLoop_cons_ok x y b rest hrows hlen, if_pos hlt, hpr]
      rfl

theorem splitLoop_error_of_cover (x : List Img) (y : YArr) (hrows : y.RowsNonempty)
    (hlen : x.length = y.length) :
    ∀ (blocks : List (List Nat)) (b : List Nat), b ∈ blocks →
      (∀ l ∈ y.labels, l ∈ b) →
      splitLoop x y blocks = .error (.assertionError
        "partitioned dataset should be smaller than original dataset")
  | [], b, hb, _ => absurd hb (List.not_mem_nil b)
  | b0 :: rest, b, hb, hcover => by
      have hlab : x.length = y.labels.length := by rw [YArr.labels_length, hlen]
      rw [splitLoop_cons_ok x y b0 rest hrows hlen]
      by_cases hlt : (FlwrP2p.maskSelect x
          (y.labels.map (fun l => decide (l ∈ b0)))).length < x.length
      · have hb0 : ¬ b = b0 := by
          intro heq
          subst heq
          rw [maskSelect_map_all x y.labels _ hlab
            (fun l hl => by simpa using hcover l hl)] at hlt
          omega
        have hbrest : b ∈ rest := by
          rcases List.mem_cons.mp hb with heq | hmem
          · exact absurd heq hb0
          · exact hmem
        rw [if_pos hlt,
          splitLoop_error_of_cover x y hrows hlen rest b hbrest hcover]
        rfl
      · rw [if_neg hlt]

theorem splitLoop_ok_length (x : List Img) (y : YArr) :
    ∀ (blocks : List (List Nat)) (px : List (List Img)) (py : List YArr),
      splitLoop x y blocks = .ok (px, py) →
      px.length = blocks.length ∧ py.length = blocks.length
  | [], px, py, h => by
      rw [splitLoop_nil] at h
      cases h
      exact ⟨rfl, rfl⟩
  | b :: rest, px, py, h => by
      rw [splitLoop] at h
      cases hsel : selectedMask y b with
      | error e => rw [hsel, error_bind] at h; cases h
      | ok sel =>
        rw [hsel, ok_bind] at h
        cases hxs : npBoolIndexE x sel with
        | error e => rw [hxs, error_bind] at h; cases h
        | ok xsel =>
          rw [hxs, ok_bind] at h
          by_cases hlt : xsel.length < x.length
          · rw [if_pos hlt] at h
            by_cases heq : xsel.length = (y.maskSelect sel).length
            · rw [if_pos heq] at h
              cases hrec : splitLoop x y rest with
              | error e => rw [hrec, error_bind] at h; cases h
              | ok pr =>
                rw [hrec, ok_bind] at h
                cases h
                obtain ⟨h1, h2⟩ := splitLoop_ok_length x y rest pr.1 pr.2 hrec
                exact ⟨by simp [h1], by simp [h2]⟩
            · rw [if_neg heq] at h; cases h
          · rw [if_neg hlt] at h; cases h

theorem partitionedClasses_two : partitionedClasses 2 =
    .ok [[0, 1, 2, 3, 4], [5, 6, 7, 8, 9]] := rfl

theorem partitionedClasses_ok_length (k : Nat) (blocks : List (List Nat))
    (h : partitionedClasses k = .ok blocks) : blocks.length = numClassBlocks k := by
  rw [partitionedClasses] at h
  by_cases h0 : k = 0
  · rw [if_pos h0] at h; cases h
  · rw [if_neg h0] at h
    by_cases h1 : 10 / k = 0
    · rw [if_pos h1] at h; cases h
    · rw [if_neg h1] at h
      cases h
      rw [numClassBlocks, List.length_map]

/-- C9: Implicit safety of the partition-size assertion: with
`num_partitions = 2` and a `y_train` containing at least one label from
each of the class blocks 0–4 and 5–9, every `assert` in
`split_training_data_into_paritions` passes and the call returns;
conversely, whenever one of the class blocks covers every label present
in `y_train` — in particular for `num_partitions = 1`, where the single
block is all of 0–9 — the call raises the `AssertionError`
`partitioned dataset should be smaller than original dataset`. -/
theorem split_assertion_behavior (x : List Img) (y : YArr)
    (hlen : x.length = y.length) (hrows : y.RowsNonempty) :
    ((∃ l ∈ y.labels, l < 5) → (∃ l ∈ y.labels, 5 ≤ l ∧ l < 10) →
      ∃ pr, split_training_data_into_paritions x y 2 = .ok pr)
    ∧ (∀ (k : Nat) (blocks : List (List Nat)) (b : List Nat),
        partitionedClasses k = .ok blocks → b ∈ blocks →
        (∀ l ∈ y.labels, l ∈ b) →
        split_training_data_into_paritions x y k =
          .error (.assertionError
            "partitioned dataset should be smaller than original dataset")) := by
  constructor
  · rintro ⟨l1, hl1, hlt1⟩ ⟨l2, hl2, hge2, hlt2⟩
    rw [split_training_data_into_paritions, partitionedClasses_two, ok_bind]
    apply splitLoop_ok_of_strict x y hrows hlen
    intro b hb
    rcases List.mem_cons.mp hb with rfl | hb'
    · refine ⟨l2, hl2, ?_⟩
      simp only [List.mem_cons, List.not_mem_nil, or_false]
      omega
    · rcases List.mem_cons.mp hb' with rfl | hb''
      · refine ⟨l1, hl1, ?_⟩
        simp only [List.mem_cons, List.not_mem_nil, or_false]
        omega
      · exact absurd hb'' (List.not_mem_nil b)
  · intro k blocks b hk hb hcover
    rw [split_training_data_into_paritions, hk, ok_bind]
    exact splitLoop_error_of_cover x y hrows hlen blocks b hb hcover

/-- C9 witness: on two samples labelled 0 and 5 the two-block split
succeeds, and with `num_partitions = 1` (single block 0–9 covering all
labels) the call raises the assertion. -/
theorem split_assertion_behavior_witness :
    (∃ pr, split_training_data_into_paritions [[0], [255]] (.d1 [0, 5]) 2 = .ok pr)
    ∧ split_training_data_into_paritions [[0], [255]] (.d1 [0, 5]) 1 =
        .error (.assertionError
          "partitioned dataset should be smaller than original dataset") := by
  have h := split_assertion_behavior [[0], [255]] (.d1 [0, 5]) (by decide) trivial
  refine ⟨h.1 ⟨0, by decide, by decide⟩ ⟨5, by decide, by decide, by decide⟩, ?_⟩
  exact h.2 1 [[0, 1, 2, 3, 4, 5, 6, 7, 8, 9]] [0, 1, 2, 3, 4, 5, 6, 7, 8, 9]
    rfl (by decide) (by decide)

/-- C1: Class-partitioned split membership: for `num_partitions = 2`,
whenever `split_training_data_into_paritions` returns, partition 0
holds exactly the samples whose label (first column for 2-D `y_train`)
lies in 0–4 and partition 1 those whose label lies in 5–9; the x rows
and y rows are selected by the same boolean mask, so zipping the
returned x partition with its returned labels gives exactly the
label-filtered original image–label pairs (pairing preserved). -/
theorem split_two_class_membership (x : List Img) (y : YArr)
    (px : List (List Img)) (py : List YArr)
    (hlen : x.length = y.length) (hlab : ∀ l ∈ y.labels, l < 10)
    (h : split_training_data_into_paritions x y 2 = .ok (px, py)) :
    px = [FlwrP2p.maskSelect x (y.labels.map (fun l => decide (l ∈ [0, 1, 2, 3, 4]))),
          FlwrP2p.maskSelect x (y.labels.map (fun l => decide (l ∈ [5, 6, 7, 8, 9])))]
    ∧ py = [y.maskSelect (y.labels.map (fun l => decide (l ∈ [0, 1, 2, 3, 4]))),
            y.maskSelect (y.labels.map (fun l => decide (l ∈ [5, 6, 7, 8, 9])))]
    ∧ (px.getD 0 []).zip ((py.getD 0 (.d1 [])).labels) =
        (x.zip y.labels).filter (fun q => decide (q.2 < 5))
    ∧ (px.getD 1 []).zip ((py.getD 1 (.d1 [])).labels) =
        (x.zip y.labels).filter (fun q => decide (5 ≤ q.2)) := by
  rw [split_training_data_into_paritions, partitionedClasses_two, ok_bind] at h
  have hrows := splitLoop_ok_rows x y _ (px, py) (by simp) h
  have hlab' : x.length = y.labels.length := by rw [YArr.labels_length, hlen]
  obtain ⟨hpx, hpy⟩ := splitLoop_ok_char x y hrows hlen _ px py h
  rw [List.map_cons, List.map_cons, List.map_nil] at hpx hpy
  have hz0 : (FlwrP2p.maskSelect x
        (y.labels.map (fun l => decide (l ∈ ([0, 1, 2, 3, 4] : List Nat))))).zip
      (FlwrP2p.maskSelect y.labels
        (y.labels.map (fun l => decide (l ∈ ([0, 1, 2, 3, 4] : List Nat))))) =
      (x.zip y.labels).filter (fun q => decide (q.2 < 5)) := by
    rw [maskSelect_zip_pred x y.labels _ hlab']
    apply List.filter_congr
    intro q _
    apply decide_eq_decide.mpr
    simp only [List.mem_cons, List.not_mem_nil, or_false]
    omega
  have hz1 : (FlwrP2p.maskSelect x
        (y.labels.map (fun l => decide (l ∈ ([5, 6, 7, 8, 9] : List Nat))))).zip
      (FlwrP2p.maskSelect y.labels
        (y.labels.map (fun l => decide (l ∈ ([5, 6, 7, 8, 9] : List Nat))))) =
      (x.zip y.labels).filter (fun q => decide (5 ≤ q.2)) := by
    rw [maskSelect_zip_pred x y.labels _ hlab']
    apply List.filter_congr
    intro q hq
    have h10 := hlab _ (List.of_mem_zip hq).2
    apply decide_eq_decide.mpr
    simp only [List.mem_cons, List.not_mem_nil, or_false]
    omega
  refine ⟨hpx, hpy, ?_, ?_⟩
  · rw [hpx, hpy]
    simp only [List.getD_cons_zero]
    rw [YArr.maskSelect_labels]
    exact hz0
  · rw [hpx, hpy]
    simp only [List.getD_cons_succ, List.getD_cons_zero]
    rw [YArr.maskSelect_labels]
    exact hz1

/-- C1 witness: the two-sample split evaluated concretely; the first
partition zipped with its labels is exactly the pairs labelled below
5. -/
theorem split_two_class_membership_witness :
    (([[[(0 : ℚ)]], [[(255 : ℚ)]]].getD 0 []).zip
        (([YArr.d1 [0], YArr.d1 [5]].getD 0 (.d1 [])).labels)) =
      (([[(0 : ℚ)], [(255 : ℚ)]].zip (YArr.d1 [0, 5]).labels).filter
        (fun q => decide (q.2 < 5))) :=
  (split_two_class_membership [[0], [255]] (.d1 [0, 5]) [[[0]], [[255]]]
    [.d1 [0], .d1 [5]] (by decide) (by decide) rfl).2.2.1

/-- C4 counterexample: with `num_nodes = 3` (and ten samples labelled
0…9, one per class) `create_partitioned_datasets` returns successfully
— but with 4 training partitions, not 3: `int(10/3) = 3` classes per
partition makes `range(0, 10, 3)` produce 4 class blocks. -/
theorem create_partitioned_count_cex :
    (create_partitioned_datasets stB).map
        (fun pr => (pr.2.partitioned_x_train.length, pr.2.partitioned_y_train.length)) =
      .ok (4, 4)
    ∧ ¬ stB.num_nodes = 4 := by
  constructor
  · rfl
  · decide

/-- C4 (amended): whenever the class-partitioned strategy returns, the
number of training partitions is `numClassBlocks num_nodes`, i.e.
`ceil(10 / int(10 / num_nodes))`; this equals `num_nodes` for
`num_nodes ∈ {2, 5, 10}` (the divisors of 10 for which the assertions
can pass), but not for every `1 ≤ num_nodes ≤ 10` — e.g. it is 4 for
`num_nodes = 3`. -/
theorem create_partitioned_count (s : ExperimentState) (s' : ExperimentState)
    (r : SplitResult) (h : create_partitioned_datasets s = .ok (s', r)) :
    r.partitioned_x_train.length = numClassBlocks s.num_nodes
    ∧ r.partitioned_y_train.length = numClassBlocks s.num_nodes
    ∧ ((s.num_nodes = 2 ∨ s.num_nodes = 5 ∨ s.num_nodes = 10) →
        r.partitioned_x_train.length = s.num_nodes) := by
  rw [create_partitioned_datasets] at h
  cases hsp : split_training_data_into_paritions (normalizeRows s.x_train)
      s.y_train s.num_nodes with
  | error e => rw [hsp, error_bind] at h; cases h
  | ok pr =>
    rw [hsp, ok_bind] at h
    cases h
    rw [split_training_data_into_paritions] at hsp
    cases hpc : partitionedClasses s.num_nodes with
    | error e => rw [hpc, error_bind] at hsp; cases hsp
    | ok blocks =>
      rw [hpc, ok_bind] at hsp
      obtain ⟨h1, h2⟩ := splitLoop_ok_length (normalizeRows s.x_train) s.y_train
        blocks pr.1 pr.2 hsp
      have hb := partitionedClasses_ok_length s.num_nodes blocks hpc
      refine ⟨by rw [h1, hb], by rw [h2, hb], ?_⟩
      rintro (hn | hn | hn) <;> rw [h1, hb, hn] <;> rfl

/-- C4 amended-claim witness: for the two-node state the strategy
returns exactly two training partitions. -/
theorem create_partitioned_count_witness :
    create_partitioned_datasets stA =
      .ok (stA, ⟨[[[(0 : ℚ)/255]], [[(255 : ℚ)/255]]], [.d1 [0], .d1 [5]],
                 [[(2 : ℚ)/255]], .d1 [1]⟩)
    ∧ ([[[(0 : ℚ)/255]], [[(255 : ℚ)/255]]] : List (List Img)).length =
        stA.num_nodes := by
  have h : create_partitioned_datasets stA =
      .ok (stA, ⟨[[[(0 : ℚ)/255]], [[(255 : ℚ)/255]]], [.d1 [0], .d1 [5]],
                 [[(2 : ℚ)/255]], .d1 [1]⟩) := rfl
  have h2 := create_partitioned_count stA stA _ h
  exact ⟨h, by simpa using h2.2.2 (Or.inl rfl)⟩

theorem normalizeRows_length (xs : List Img) : (normalizeRows xs).length = xs.length := by
  rw [normalizeRows, List.length_map]

theorem map_getD_range (xs : List α) (d : α) :
    (List.range xs.length).map (fun i => xs.getD i d) = xs := by
  apply List.ext_getElem
  · simp
  · intro i h1 h2
    simp only [List.getElem_map, List.getElem_range]
    exact List.getD_eq_getElem xs d (by simpa using h2)

theorem fancyIndex_eq_map (xs : List α) (idx : List Nat) (d : α)
    (h : ∀ i ∈ idx, i < xs.length) :
    fancyIndex xs idx = some (idx.map (fun i => xs.getD i d)) := by
  induction idx with
  | nil => rfl
  | cons i rest ih =>
    have hi : i < xs.length := h i (by simp)
    have hget : xs[i]? = some (xs.getD i d) := by
      rw [List.getElem?_eq_getElem hi]
      rw [List.getD_eq_getElem xs d hi]
    rw [fancyIndex, List.mapM_cons, hget,
      show rest.mapM (fun i => xs[i]?) = fancyIndex xs rest from rfl,
      ih (fun i' hi' => h i' (by simp [hi']))]
    rfl

theorem fancyIndex_perm (xs : List α) (idx : List Nat) (d : α)
    (hp : idx.Perm (List.range xs.length)) :
    fancyIndex xs idx = some (idx.map (fun i => xs.getD i d))
    ∧ (idx.map (fun i => xs.getD i d)).Perm xs := by
  have hmem : ∀ i ∈ idx, i < xs.length := fun i hi =>
    List.mem_range.mp (hp.mem_iff.mp hi)
  refine ⟨fancyIndex_eq_map xs idx d hmem, ?_⟩
  have h1 := hp.map (fun i => xs.getD i d)
  rw [map_getD_range xs d] at h1
  exact h1

theorem splitBySizes_length : ∀ (ss : List Nat) (xs : List α),
    (splitBySizes ss xs).length = ss.length
  | [], _ => rfl
  | s :: ss, xs => by
      rw [splitBySizes, List.length_cons, splitBySizes_length ss (xs.drop s)]
      rfl

theorem splitBySizes_flatten : ∀ (ss : List Nat) (xs : List α),
    (splitBySizes ss xs).flatten = xs.take ss.sum
  | [], xs => by simp [splitBySizes]
  | s :: ss, xs => by
      rw [splitBySizes, List.flatten_cons, splitBySizes_flatten ss (xs.drop s),
        List.sum_cons, List.take_add]

theorem arraySplitSizes_sum (n k : Nat) (hk : 0 < k) :
    (arraySplitSizes n k).sum = n := by
  rw [arraySplitSizes, List.sum_append, List.sum_replicate, List.sum_replicate,
    smul_eq_mul, smul_eq_mul]
  have hr : n % k < k := Nat.mod_lt n hk
  have hdm : k * (n / k) + n % k = n := Nat.div_add_mod n k
  have h1 : n % k * (n / k + 1) = n % k * (n / k) + n % k := by ring
  have h2 : (k - n % k) * (n / k) = k * (n / k) - n % k * (n / k) :=
    Nat.sub_mul k (n % k) (n / k)
  have h3 : n % k * (n / k) ≤ k * (n / k) :=
    Nat.mul_le_mul_right _ (le_of_lt hr)
  omega

theorem array_split_length (xs : List α) (k : Nat) (hk : 0 < k) :
    (array_split xs k).length = k := by
  rw [array_split, splitBySizes_length, arraySplitSizes, List.length_append,
    List.length_replicate, List.length_replicate]
  have := Nat.mod_lt xs.length hk
  omega

theorem array_split_flatten (xs : List α) (k : Nat) (hk : 0 < k) :
    (array_split xs k).flatten = xs := by
  rw [array_split, splitBySizes_flatten, arraySplitSizes_sum _ _ hk, List.take_length]

theorem splitBySizes_map_length : ∀ (ss : List Nat) (xs : List α),
    ss.sum ≤ xs.length → (splitBySizes ss xs).map List.length = ss
  | [], _, _ => rfl
  | s :: ss, xs, h => by
      rw [List.sum_cons] at h
      rw [splitBySizes, List.map_cons, List.length_take,
        splitBySizes_map_length ss (xs.drop s) (by rw [List.length_drop]; omega)]
      congr 1
      omega

theorem array_split_balanced (xs : List α) (k : Nat) (hk : 0 < k) :
    ∀ a ∈ array_split xs k, ∀ b ∈ array_split xs k, a.length ≤ b.length + 1 := by
  intro a ha b hb
  have hsum : (arraySplitSizes xs.length k).sum = xs.length :=
    arraySplitSizes_sum _ _ hk
  have hmap : (array_split xs k).map List.length = arraySplitSizes xs.length k := by
    rw [array_split]
    exact splitBySizes_map_length _ _ (le_of_eq hsum)
  have hmem : ∀ c ∈ array_split xs k,
      c.length = xs.length / k + 1 ∨ c.length = xs.length / k := by
    intro c hc
    have : c.length ∈ arraySplitSizes xs.length k := by
      rw [← hmap]
      exact List.mem_map.mpr ⟨c, hc, rfl⟩
    rw [arraySplitSizes] at this
    rcases List.mem_append.mp this with hm | hm
    · exact Or.inl (List.eq_of_mem_replicate hm)
    · exact Or.inr (List.eq_of_mem_replicate hm)
  rcases hmem a ha with h1 | h1 <;> rcases hmem b hb with h2 | h2 <;> omega

theorem YArr.length_d1 (ys : List Nat) : (YArr.d1 ys).length = ys.length := rfl

theorem YArr.arraySplit_length (y : YArr) (k : Nat) (hk : 0 < k) :
    (y.arraySplit k).length = k := by
  cases y <;> simp [YArr.arraySplit, array_split_length _ _ hk]

theorem joinY_arraySplit (y : YArr) (k : Nat) (hk : 0 < k) :
    joinY (y.arraySplit k) = y := by
  cases y with
  | d1 ys =>
    rw [YArr.arraySplit, joinY, if_pos (by simp [YArr.isD1])]
    rw [List.map_map]
    rw [show (YArr.asD1 ∘ YArr.d1) = id from rfl, List.map_id,
      array_split_flatten _ _ hk]
  | d2 ys =>
    have hlen : (array_split ys k).length = k := array_split_length _ _ hk
    rw [YArr.arraySplit, joinY, if_neg]
    · rw [List.map_map]
      rw [show (YArr.asD2 ∘ YArr.d2) = id from rfl, List.map_id,
        array_split_flatten _ _ hk]
    · intro hall
      cases harr : array_split ys k with
      | nil =>
        rw [harr] at hlen
        simp at hlen
        omega
      | cons c cs =>
        rw [harr] at hall
        have := List.all_eq_true.mp hall (YArr.d2 c) (by simp)
        cases this

theorem YArr.fancyIndex_ok (y : YArr) (idx : List Nat)
    (h : ∀ i ∈ idx, i < y.length) : ∃ yp, YArr.fancyIndex y idx = some yp := by
  cases y with
  | d1 ys =>
    refine ⟨.d1 (idx.map (fun i => ys.getD i 0)), ?_⟩
    rw [YArr.fancyIndex, fancyIndex_eq_map ys idx 0 h]
    rfl
  | d2 ys =>
    refine ⟨.d2 (idx.map (fun i => ys.getD i [])), ?_⟩
    rw [YArr.fancyIndex, fancyIndex_eq_map ys idx [] h]
    rfl

/-- C3: Random split is a balanced permutation partition: for every
stored training set (with matching x/y lengths), permutation draw and
positive node count, `random_split` returns `num_nodes` training
partitions whose concatenation is exactly the normalized training set
permuted by the drawn indices (hence a permutation of it), with the
labels fancy-indexed by the same index list (pairing preserved), and
any two partition sizes differ by at most 1. -/
theorem random_split_spec (s : ExperimentState) (indices : List Nat)
    (hlen : s.y_train.length = s.x_train.length)
    (hperm : indices.Perm (List.range s.x_train.length))
    (hk : 0 < s.num_nodes) :
    ∃ r xp yp,
      random_split s indices = .ok (s, r)
      ∧ r.partitioned_x_train.length = s.num_nodes
      ∧ r.partitioned_y_train.length = s.num_nodes
      ∧ fancyIndex (normalizeRows s.x_train) indices = some xp
      ∧ YArr.fancyIndex s.y_train indices = some yp
      ∧ r.partitioned_x_train.flatten = xp
      ∧ joinY r.partitioned_y_train = yp
      ∧ xp.Perm (normalizeRows s.x_train)
      ∧ (∀ a ∈ r.partitioned_x_train, ∀ b ∈ r.partitioned_x_train,
          a.length ≤ b.length + 1)
      ∧ r.x_test = normalizeRows s.x_test ∧ r.y_test = s.y_test := by
  have hpx : indices.Perm (List.range (normalizeRows s.x_train).length) := by
    rw [normalizeRows_length]
    exact hperm
  obtain ⟨hfx, hfp⟩ := fancyIndex_perm (normalizeRows s.x_train) indices [] hpx
  have hmy : ∀ i ∈ indices, i < s.y_train.length := by
    intro i hi
    have := List.mem_range.mp (hperm.mem_iff.mp hi)
    omega
  obtain ⟨yp, hfy⟩ := YArr.fancyIndex_ok s.y_train indices hmy
  refine ⟨⟨array_split (indices.map (fun i => (normalizeRows s.x_train).getD i []))
      s.num_nodes, yp.arraySplit s.num_nodes, normalizeRows s.x_test, s.y_test⟩,
    indices.map (fun i => (normalizeRows s.x_train).getD i []), yp, ?_, ?_, ?_,
    hfx, hfy, ?_, ?_, hfp, ?_, rfl, rfl⟩
  · rw [random_split]
    simp only [hfx, hfy, ok_bind]
    rw [if_neg (by omega)]
  · exact array_split_length _ _ hk
  · exact YArr.arraySplit_length _ _ hk
  · exact array_split_flatten _ _ hk
  · exact joinY_arraySplit _ _ hk
  · exact array_split_balanced _ _ hk

/-- C3 witness: the random split of the two-sample state with the swap
permutation returns two balanced partitions. -/
theorem random_split_spec_witness :
    ∃ r, random_split stA [1, 0] = .ok (stA, r)
      ∧ r.partitioned_x_train.length = stA.num_nodes
      ∧ r.partitioned_y_train.length = stA.num_nodes := by
  obtain ⟨r, xp, yp, h1, h2, h3, _⟩ :=
    random_split_spec stA [1, 0] (by decide) (by decide) (by decide)
  exact ⟨r, h1, h2, h3⟩

/-- C10: Implicit frame property: `random_split`,
`create_skewed_partition_split` and `create_partitioned_datasets` never
modify the stored state (`self.x_train`, `self.y_train`, `self.x_test`,
`self.y_test` and the rest) — they work on normalized copies, the
returned `x_test` being `normalize_data(self.x_test)` — and each
returns the stored `self.y_test` itself, unnormalized and unreordered,
as the test labels. -/
theorem runner_frame_properties (s : ExperimentState)
    (indices perm0 perm1 : List Nat) (skew : ℚ) :
    (∀ s' r, random_split s indices = .ok (s', r) →
      s' = s ∧ r.y_test = s.y_test ∧ r.x_test = normalizeRows s.x_test)
    ∧ (∀ s' r, create_skewed_partition_split s skew perm0 perm1 = .ok (s', r) →
      s' = s ∧ r.y_test = s.y_test ∧ r.x_test = normalizeRows s.x_test)
    ∧ (∀ s' r, create_partitioned_datasets s = .ok (s', r) →
      s' = s ∧ r.y_test = s.y_test ∧ r.x_test = normalizeRows s.x_test) := by
  refine ⟨?_, ?_, ?_⟩
  · intro s' r h
    rw [random_split] at h
    cases hfx : fancyIndex (normalizeRows s.x_train) indices with
    | none => simp only [hfx] at h; cases h
    | some x' =>
      simp only [hfx, ok_bind] at h
      cases hfy : YArr.fancyIndex s.y_train indices with
      | none => simp only [hfy] at h; cases h
      | some y' =>
        simp only [hfy, ok_bind] at h
        by_cases hk : s.num_nodes = 0
        · rw [if_pos hk] at h; cases h
        · rw [if_neg hk] at h
          injection h with hpair
          injection hpair with hs hr
          subst hs
          subst hr
          exact ⟨rfl, rfl, rfl⟩
  · intro s' r h
    rw [create_skewed_partition_split] at h
    cases hy : s.y_train with
    | d2 ys => simp only [hy] at h; cases h
    | d1 ys =>
      simp only [hy] at h
      by_cases hg : (∀ l ∈ ys, l < 10) ∧ ys.length ≤ (normalizeRows s.x_train).length
      · rw [if_pos hg] at h
        cases hsk : skewedLoop ((List.range 10).map
            (fun c => classPairs (normalizeRows s.x_train) ys c)) skew with
        | error e => simp only [hsk, error_bind] at h; cases h
        | ok pr =>
          simp only [hsk, ok_bind] at h
          cases hp0 : fancyIndex pr.1 perm0 with
          | none => simp only [hp0] at h; cases h
          | some p0 =>
            cases hp1 : fancyIndex pr.2 perm1 with
            | none => simp only [hp0, hp1] at h; cases h
            | some p1 =>
              simp only [hp0, hp1] at h
              injection h with hpair
              injection hpair with hs hr
              subst hs
              subst hr
              exact ⟨rfl, rfl, rfl⟩
      · rw [if_neg hg] at h
        cases h
  · intro s' r h
    rw [create_partitioned_datasets] at h
    cases hsp : split_training_data_into_paritions (normalizeRows s.x_train)
        s.y_train s.num_nodes with
    | error e => rw [hsp, error_bind] at h; cases h
    | ok pr =>
      rw [hsp, ok_bind] at h
      injection h with hpair
      injection hpair with hs hr
      subst hs
      subst hr
      exact ⟨rfl, rfl, rfl⟩

/-- C10 witness: the frame property evaluated on the concrete two-node
state through `create_partitioned_datasets`. -/
theorem runner_frame_properties_witness :
    stA = stA
    ∧ (SplitResult.y_test ⟨[[[(0 : ℚ)/255]], [[(255 : ℚ)/255]]], [.d1 [0], .d1 [5]],
        [[(2 : ℚ)/255]], .d1 [1]⟩) = stA.y_test
    ∧ (SplitResult.x_test ⟨[[[(0 : ℚ)/255]], [[(255 : ℚ)/255]]], [.d1 [0], .d1 [5]],
        [[(2 : ℚ)/255]], .d1 [1]⟩) = normalizeRows stA.x_test :=
  (runner_frame_properties stA [1, 0] [0] [0] (9/10)).2.2 stA
    ⟨[[[(0 : ℚ)/255]], [[(255 : ℚ)/255]]], [.d1 [0], .d1 [5]],
      [[(2 : ℚ)/255]], .d1 [1]⟩ rfl

theorem extendAt2_idx_zero (p : List β × List β) (v : List β) :
    extendAt2 p (Int.ofNat 0) v = .ok (p.1 ++ v, p.2) := rfl

theorem extendAt2_idx_one (p : List β × List β) (v : List β) :
    extendAt2 p (Int.ofNat 1) v = .ok (p.1, p.2 ++ v) := rfl

theorem extendAt2_idx_zero_sub_one (p : List β × List β) (v : List β) :
    extendAt2 p (Int.ofNat 0 - 1) v = .ok (p.1, p.2 ++ v) := rfl

theorem extendAt2_idx_one_sub_one (p : List β × List β) (v : List β) :
    extendAt2 p (Int.ofNat 1 - 1) v = .ok (p.1 ++ v, p.2) := rfl

theorem skewedLoopGo_cons_lt5 (bx : List (List (Img × Nat))) (skew : ℚ) (i : Nat)
    (rest : List Nat) (acc : List (Img × Nat) × List (Img × Nat)) (h : i < 5) :
    skewedLoopGo bx skew (i :: rest) acc =
      skewedLoopGo bx skew rest
        (acc.1 ++ skTake bx skew i, acc.2 ++ skDrop bx skew i) := by
  simp only [skewedLoopGo]
  rw [Nat.div_eq_of_lt h, extendAt2_idx_zero, ok_bind, extendAt2_idx_zero_sub_one,
    ok_bind]
  rfl

theorem skewedLoopGo_cons_ge5 (bx : List (List (Img × Nat))) (skew : ℚ) (i : Nat)
    (rest : List Nat) (acc : List (Img × Nat) × List (Img × Nat))
    (h5 : 5 ≤ i) (h10 : i < 10) :
    skewedLoopGo bx skew (i :: rest) acc =
      skewedLoopGo bx skew rest
        (acc.1 ++ skDrop bx skew i, acc.2 ++ skTake bx skew i) := by
  simp only [skewedLoopGo]
  rw [show i / 5 = 1 by omega, extendAt2_idx_one, ok_bind, extendAt2_idx_one_sub_one,
    ok_bind]
  rfl

theorem skewedLoop_eval (bx : List (List (Img × Nat))) (skew : ℚ) :
    skewedLoop bx skew = .ok
      (([] : List (Img × Nat)) ++ skTake bx skew 0 ++ skTake bx skew 1
         ++ skTake bx skew 2 ++ skTake bx skew 3 ++ skTake bx skew 4
         ++ skDrop bx skew 5 ++ skDrop bx skew 6 ++ skDrop bx skew 7
         ++ skDrop bx skew 8 ++ skDrop bx skew 9,
       ([] : List (Img × Nat)) ++ skDrop bx skew 0 ++ skDrop bx skew 1
         ++ skDrop bx skew 2 ++ skDrop bx skew 3 ++ skDrop bx skew 4
         ++ skTake bx skew 5 ++ skTake bx skew 6 ++ skTake bx skew 7
         ++ skTake bx skew 8 ++ skTake bx skew 9) := by
  rw [skewedLoop, show List.range 10 = [0, 1, 2, 3, 4, 5, 6, 7, 8, 9] from rfl]
  rw [skewedLoopGo_cons_lt5 bx skew 0 _ _ (by omega),
    skewedLoopGo_cons_lt5 bx skew 1 _ _ (by omega),
    skewedLoopGo_cons_lt5 bx skew 2 _ _ (by omega),
    skewedLoopGo_cons_lt5 bx skew 3 _ _ (by omega),
    skewedLoopGo_cons_lt5 bx skew 4 _ _ (by omega),
    skewedLoopGo_cons_ge5 bx skew 5 _ _ (by omega) (by omega),
    skewedLoopGo_cons_ge5 bx skew 6 _ _ (by omega) (by omega),
    skewedLoopGo_cons_ge5 bx skew 7 _ _ (by omega) (by omega),
    skewedLoopGo_cons_ge5 bx skew 8 _ _ (by omega) (by omega),
    skewedLoopGo_cons_ge5 bx skew 9 _ _ (by omega) (by omega)]
  rfl

theorem pyInt_of_nonneg (q : ℚ) (h : 0 ≤ q) : pyInt q = ⌊q⌋ := if_pos h

theorem skTake_eq_skewHead (x : List Img) (ys : List Nat) (skew : ℚ)
    (hs0 : 0 ≤ skew) (i : Nat) (hi : i < 10) :
    skTake ((List.range 10).map (fun c => classPairs x ys c)) skew i =
      skewHead x ys skew i := by
  have hg : ((List.range 10).map (fun c => classPairs x ys c)).getD i [] =
      classPairs x ys i := by
    rw [List.getD_eq_getElem _ _ (by simpa using hi)]
    simp
  rw [skTake, hg, skewHead, skewCount]
  congr 2
  exact pyInt_of_nonneg _ (mul_nonneg (Nat.cast_nonneg _) hs0)

theorem skDrop_eq_skewTail (x : List Img) (ys : List Nat) (skew : ℚ)
    (hs0 : 0 ≤ skew) (i : Nat) (hi : i < 10) :
    skDrop ((List.range 10).map (fun c => classPairs x ys c)) skew i =
      skewTail x ys skew i := by
  have hg : ((List.range 10).map (fun c => classPairs x ys c)).getD i [] =
      classPairs x ys i := by
    rw [List.getD_eq_getElem _ _ (by simpa using hi)]
    simp
  rw [skDrop, hg, skewTail, skewCount]
  congr 2
  exact pyInt_of_nonneg _ (mul_nonneg (Nat.cast_nonneg _) hs0)

theorem sum_count_filter_range [BEq (Img × Nat)] [LawfulBEq (Img × Nat)]
    (l : List (Img × Nat)) (a : Img × Nat) (n : Nat) :
    ((List.range n).map
      (fun c => ((l.filter (fun q => decide (q.2 = c))).count a))).sum =
      if a.2 < n then l.count a else 0 := by
  induction n with
  | zero => simp
  | succ m ih =>
    rw [List.range_succ, List.map_append, List.sum_append, ih]
    simp only [List.map_cons, List.map_nil, List.sum_cons, List.sum_nil]
    have hc : ((l.filter (fun q => decide (q.2 = m))).count a) =
        if a.2 = m then l.count a else 0 := by
      by_cases he : a.2 = m
      · rw [if_pos he, List.count_filter (by simpa using he)]
      · rw [if_neg he, List.count_eq_zero]
        intro hmem
        exact he (by simpa using List.of_mem_filter hmem)
    rw [hc]
    by_cases h1 : a.2 < m <;> by_cases h2 : a.2 = m
    · exact absurd h1 (by omega)
    · rw [if_pos h1, if_neg h2, if_pos (by omega : a.2 < m + 1)]
      omega
    · rw [if_neg h1, if_pos h2, if_pos (by omega : a.2 < m + 1)]
      omega
    · rw [if_neg h1, if_neg h2, if_neg (by omega : ¬ a.2 < m + 1)]
      omega

theorem node_specs_count (x : List Img) (ys : List Nat) (skew : ℚ)
    (hlab : ∀ l ∈ ys, l < 10) [BEq (Img × Nat)] [LawfulBEq (Img × Nat)]
    (a : Img × Nat) :
    (node0Spec x ys skew ++ node1Spec x ys skew).count a = (x.zip ys).count a := by
  have hTD : ∀ c, (skewHead x ys skew c).count a + (skewTail x ys skew c).count a
      = ((x.zip ys).filter (fun q => decide (q.2 = c))).count a := by
    intro c
    rw [← List.count_append, skewHead, skewTail, List.take_append_drop]
    simp only [classPairs]
  have hsum := sum_count_filter_range (x.zip ys) a 10
  rw [show List.range 10 = [0, 1, 2, 3, 4, 5, 6, 7, 8, 9] from rfl] at hsum
  simp only [List.map_cons, List.map_nil, List.sum_cons, List.sum_nil] at hsum
  have hK : ¬ a.2 < 10 → (x.zip ys).count a = 0 := by
    intro h10
    rw [List.count_eq_zero]
    intro hmem
    exact h10 (hlab a.2 (List.of_mem_zip hmem).2)
  have h0 := hTD 0
  have h1 := hTD 1
  have h2 := hTD 2
  have h3 := hTD 3
  have h4 := hTD 4
  have h5 := hTD 5
  have h6 := hTD 6
  have h7 := hTD 7
  have h8 := hTD 8
  have h9 := hTD 9
  rw [List.count_append, node0Spec, node1Spec]
  simp only [List.count_append, List.count_flatten,
    show List.range 5 = [0, 1, 2, 3, 4] from rfl, List.map_cons, List.map_nil,
    List.sum_cons, List.sum_nil, Nat.add_zero, Nat.zero_add]
  norm_num
  by_cases h10 : a.2 < 10
  · rw [if_pos h10] at hsum
    omega
  · rw [if_neg h10] at hsum
    have hz := hK h10
    omega

theorem node_specs_perm (x : List Img) (ys : List Nat) (skew : ℚ)
    (hlab : ∀ l ∈ ys, l < 10) :
    (node0Spec x ys skew ++ node1Spec x ys skew).Perm (x.zip ys) := by
  rw [List.perm_iff_count]
  intro a
  exact @node_specs_count x ys skew hlab instBEqOfDecidableEq
    (lawfulBEqOfDecidableEq _) a

/-- C2: Skewed-by-label split correctness and conservation: for a 1-D
`y_train` with labels in 0–9 and a skew factor `s ∈ [0, 1]`,
`create_skewed_partition_split` returns two image/label partitions such
that — up to each node's final in-node shuffle, an arbitrary
permutation — node 0 receives the first `⌊n_c·s⌋` samples of each class
`c ∈ 0–4` and the remaining `n_c − ⌊n_c·s⌋` samples of each class
`c ∈ 5–9`, symmetrically for node 1; every training sample appears in
exactly one of the two partitions, and in each partition the `i`-th x
entry is paired with its original label (the zip of a partition's
images with its labels is a permutation of the corresponding
image–label pairs of the training set). -/
theorem create_skewed_partition_spec (s : ExperimentState) (ys : List Nat)
    (skew : ℚ) (perm0 perm1 : List Nat)
    (hy : s.y_train = .d1 ys)
    (hlab : ∀ l ∈ ys, l < 10)
    (hlen : ys.length = s.x_train.length)
    (hs0 : 0 ≤ skew) (hs1 : skew ≤ 1)
    (hp0 : perm0.Perm (List.range
      (node0Spec (normalizeRows s.x_train) ys skew).length))
    (hp1 : perm1.Perm (List.range
      (node1Spec (normalizeRows s.x_train) ys skew).length)) :
    ∃ xs0 xs1 ys0 ys1,
      create_skewed_partition_split s skew perm0 perm1 =
        .ok (s, ⟨[xs0, xs1], [.d1 ys0, .d1 ys1], normalizeRows s.x_test, s.y_test⟩)
      ∧ (xs0.zip ys0).Perm (node0Spec (normalizeRows s.x_train) ys skew)
      ∧ (xs1.zip ys1).Perm (node1Spec (normalizeRows s.x_train) ys skew)
      ∧ ((xs0.zip ys0) ++ (xs1.zip ys1)).Perm
          ((normalizeRows s.x_train).zip ys) := by
  have hxlen : ys.length ≤ (normalizeRows s.x_train).length := by
    rw [normalizeRows_length]
    omega
  have e0 : ([] : List (Img × Nat))
      ++ skTake ((List.range 10).map
          (fun c => classPairs (normalizeRows s.x_train) ys c)) skew 0
      ++ skTake ((List.range 10).map
          (fun c => classPairs (normalizeRows s.x_train) ys c)) skew 1
      ++ skTake ((List.range 10).map
          (fun c => classPairs (normalizeRows s.x_train) ys c)) skew 2
      ++ skTake ((List.range 10).map
          (fun c => classPairs (normalizeRows s.x_train) ys c)) skew 3
      ++ skTake ((List.range 10).map
          (fun c => classPairs (normalizeRows s.x_train) ys c)) skew 4
      ++ skDrop ((List.range 10).map
          (fun c => classPairs (normalizeRows s.x_train) ys c)) skew 5
      ++ skDrop ((List.range 10).map
          (fun c => classPairs (normalizeRows s.x_train) ys c)) skew 6
      ++ skDrop ((List.range 10).map
          (fun c => classPairs (normalizeRows s.x_train) ys c)) skew 7
      ++ skDrop ((List.range 10).map
          (fun c => classPairs (normalizeRows s.x_train) ys c)) skew 8
      ++ skDrop ((List.range 10).map
          (fun c => classPairs (normalizeRows s.x_train) ys c)) skew 9
      = node0Spec (normalizeRows s.x_train) ys skew := by
    rw [skTake_eq_skewHead _ ys skew hs0 0 (by omega),
      skTake_eq_skewHead _ ys skew hs0 1 (by omega),
      skTake_eq_skewHead _ ys skew hs0 2 (by omega),
      skTake_eq_skewHead _ ys skew hs0 3 (by omega),
      skTake_eq_skewHead _ ys skew hs0 4 (by omega),
      skDrop_eq_skewTail _ ys skew hs0 5 (by omega),
      skDrop_eq_skewTail _ ys skew hs0 6 (by omega),
      skDrop_eq_skewTail _ ys skew hs0 7 (by omega),
      skDrop_eq_skewTail _ ys skew hs0 8 (by omega),
      skDrop_eq_skewTail _ ys skew hs0 9 (by omega)]
    simp [node0Spec, show List.range 5 = [0, 1, 2, 3, 4] from rfl,
      List.append_assoc]
  have e1 : ([] : List (Img × Nat))
      ++ skDrop ((List.range 10).map
          (fun c => classPairs (normalizeRows s.x_train) ys c)) skew 0
      ++ skDrop ((List.range 10).map
          (fun c => classPairs (normalizeRows s.x_train) ys c)) skew 1
      ++ skDrop ((List.range 10).map
          (fun c => classPairs (normalizeRows s.x_train) ys c)) skew 2
      ++ skDrop ((List.range 10).map
          (fun c => classPairs (normalizeRows s.x_train) ys c)) skew 3
      ++ skDrop ((List.range 10).map
          (fun c => classPairs (normalizeRows s.x_train) ys c)) skew 4
      ++ skTake ((List.range 10).map
          (fun c => classPairs (normalizeRows s.x_train) ys c)) skew 5
      ++ skTake ((List.range 10).map
          (fun c => classPairs (normalizeRows s.x_train) ys c)) skew 6
      ++ skTake ((List.range 10).map
          (fun c => classPairs (normalizeRows s.x_train) ys c)) skew 7
      ++ skTake ((List.range 10).map
          (fun c => classPairs (normalizeRows s.x_train) ys c)) skew 8
      ++ skTake ((List.range 10).map
          (fun c => classPairs (normalizeRows s.x_train) ys c)) skew 9
      = node1Spec (normalizeRows s.x_train) ys skew := by
    rw [skDrop_eq_skewTail _ ys skew hs0 0 (by omega),
      skDrop_eq_skewTail _ ys skew hs0 1 (by omega),
      skDrop_eq_skewTail _ ys skew hs0 2 (by omega),
      skDrop_eq_skewTail _ ys skew hs0 3 (by omega),
      skDrop_eq_skewTail _ ys skew hs0 4 (by omega),
      skTake_eq_skewHead _ ys skew hs0 5 (by omega),
      skTake_eq_skewHead _ ys skew hs0 6 (by omega),
      skTake_eq_skewHead _ ys skew hs0 7 (by omega),
      skTake_eq_skewHead _ ys skew hs0 8 (by omega),
      skTake_eq_skewHead _ ys skew hs0 9 (by omega)]
    simp [node1Spec, show List.range 5 = [0, 1, 2, 3, 4] from rfl,
      List.append_assoc]
  have hbx : skewedLoop ((List.range 10).map
      (fun c => classPairs (normalizeRows s.x_train) ys c)) skew =
      .ok (node0Spec (normalizeRows s.x_train) ys skew,
           node1Spec (normalizeRows s.x_train) ys skew) := by
    rw [skewedLoop_eval, e0, e1]
  obtain ⟨hf0, hperm0⟩ :=
    fancyIndex_perm (node0Spec (normalizeRows s.x_train) ys skew) perm0 ([], 0) hp0
  obtain ⟨hf1, hperm1⟩ :=
    fancyIndex_perm (node1Spec (normalizeRows s.x_train) ys skew) perm1 ([], 0) hp1
  refine ⟨(perm0.map (fun i =>
      (node0Spec (normalizeRows s.x_train) ys skew).getD i ([], 0))).map Prod.fst,
    (perm1.map (fun i =>
      (node1Spec (normalizeRows s.x_train) ys skew).getD i ([], 0))).map Prod.fst,
    (perm0.map (fun i =>
      (node0Spec (normalizeRows s.x_train) ys skew).getD i ([], 0))).map Prod.snd,
    (perm1.map (fun i =>
      (node1Spec (normalizeRows s.x_train) ys skew).getD i ([], 0))).map Prod.snd,
    ?_, ?_, ?_, ?_⟩
  · rw [create_skewed_partition_split]
    simp only [hy]
    rw [if_pos ⟨hlab, hxlen⟩, hbx, ok_bind]
    simp only [hf0, hf1]
  · rw [zip_proj_eq_self]
    exact hperm0
  · rw [zip_proj_eq_self]
    exact hperm1
  · rw [zip_proj_eq_self, zip_proj_eq_self]
    exact (hperm0.append hperm1).trans
      (node_specs_perm (normalizeRows s.x_train) ys skew hlab)

/-- C2 witness: the skewed split evaluated on the two-sample state with
skew factor 0 and identity shuffles: the two partitions together are a
permutation of the whole normalized training set. -/
theorem create_skewed_partition_spec_witness :
    ∃ xs0 xs1 ys0 ys1,
      create_skewed_partition_split stA 0 [0] [0] =
        .ok (stA, ⟨[xs0, xs1], [.d1 ys0, .d1 ys1], normalizeRows stA.x_test,
                   stA.y_test⟩)
      ∧ ((xs0.zip ys0) ++ (xs1.zip ys1)).Perm
          ((normalizeRows stA.x_train).zip [0, 5]) := by
  have hlen0 : (node0Spec (normalizeRows stA.x_train) [0, 5] 0).length = 1 := by
    simp [node0Spec, skewHead, skewTail, skewCount, classPairs, normalizeRows,
      normalizeImage, stA, show List.range 5 = [0, 1, 2, 3, 4] from rfl]
  have hlen1 : (node1Spec (normalizeRows stA.x_train) [0, 5] 0).length = 1 := by
    simp [node1Spec, skewHead, skewTail, skewCount, classPairs, normalizeRows,
      normalizeImage, stA, show List.range 5 = [0, 1, 2, 3, 4] from rfl]
  have hp0 : ([0] : List Nat).Perm (List.range
      (node0Spec (normalizeRows stA.x_train) [0, 5] 0).length) := by
    rw [hlen0]
    exact List.Perm.refl [0]
  have hp1 : ([0] : List Nat).Perm (List.range
      (node1Spec (normalizeRows stA.x_train) [0, 5] 0).length) := by
    rw [hlen1]
    exact List.Perm.refl [0]
  obtain ⟨xs0, xs1, ys0, ys1, h1, _, _, h4⟩ :=
    create_skewed_partition_spec stA [0, 5] 0 [0] [0] rfl (by decide) (by decide)
      le_rfl (by norm_num) hp0 hp1
  exact ⟨xs0, xs1, ys0, ys1, h1, h4⟩

end FlwrP2p
